import Mathlib

set_option maxRecDepth 4000

/-!
Verification development for the `bookkeeper` package: the `ParameterFile`
type-coercion protocol (`src/bookkeeper/__init__.py`), the simulation-status
classification of the `cholla` and `nautilus` variants, and the
`SimulationGrid` folder-discovery logic.

Modelling conventions:

* Python `float` values are modelled by `PyFloat`: a rational number that
  is exactly representable in IEEE-754 binary64 for finite values, plus
  the three non-finite values `inf`, `-inf`, `nan`.  `pyFloat` models the
  builtin `float(str)`: surrounding whitespace is stripped, PEP 515
  underscores are validated and discarded, and the exact decimal value is
  correctly rounded to binary64 (round to nearest, ties to even, with
  overflow to infinity and gradual underflow through the subnormals).
* Python exceptions are modelled by `Except PyErr`; an uncaught exception
  is an `.error` result.
* The parameter file on disk is modelled as its list of text lines
  (`write` joins lines with a newline, `configparser` splits them again;
  for line contents free of newline characters this is a bijection).
* `configparser` is external library code; `parseLines` models its
  behaviour on the flat `key=value` files this package reads and writes:
  blank lines and comment lines are skipped, each remaining line is split
  at the first `=` or `:` delimiter, keys are stripped and lower-cased
  (the default `optionxform`), values are stripped, a duplicate key or a
  delimiter-free line is a parse error.  Section headers, continuation
  lines, and non-ASCII digit forms are outside the modelled fragment.
-/

namespace Bookkeeper

/-- Model of a Python `float` value: an exact rational, or one of the
non-finite values. -/
inductive PyFloat where
  | finite (q : ℚ)
  | inf
  | neginf
  | nan
deriving DecidableEq, Repr

/-- Python exception kinds relevant to this package. -/
inductive PyErr where
  | parseError
  | valueError
  | overflowError
  | assertionError
  | fileNotFoundError
deriving DecidableEq, Repr

deriving instance DecidableEq for Except

/-- Exponentiation by squaring with explicit fuel: recursion depth is
logarithmic in the exponent, so concrete evaluation stays shallow even
for the binary64 exponent range. -/
def powNatFuel : Nat → Nat → Nat → Nat
  | 0, _, _ => 1
  | fuel + 1, b, e =>
    if e = 0 then 1
    else
      let h := powNatFuel fuel b (e / 2)
      if e % 2 = 0 then h * h else h * h * b

/-- `b ^ e` by squaring (provably equal to `b ^ e`). -/
def powNat (b e : Nat) : Nat :=
  powNatFuel e b e

/-- Fine phase of the base-2 logarithm: one bit per recursion step. -/
def log2Fuel : Nat → Nat → Nat
  | 0, _ => 0
  | fuel + 1, n => if n < 2 then 0 else 1 + log2Fuel fuel (n / 2)

/-- Coarse phase of the base-2 logarithm: 64 bits per recursion step, so
concrete evaluation stays shallow for multi-thousand-bit numbers. -/
def log2Coarse : Nat → Nat → Nat
  | 0, n => log2Fuel n n
  | fuel + 1, n => if n < 2 ^ 64 then log2Fuel 64 n else 64 + log2Coarse fuel (n / 2 ^ 64)

/-- Floor of the base-2 logarithm of a positive natural number. -/
def log2Nat (n : Nat) : Nat :=
  log2Coarse n n

/-- Split a character list at the first character satisfying `p`; the
second component is `none` when no character matches. -/
def splitAtFirst (p : Char → Bool) : List Char → List Char × Option (List Char)
  | [] => ([], none)
  | c :: cs =>
    if p c then ([], some cs)
    else
      let r := splitAtFirst p cs
      (c :: r.1, r.2)

/-- Value of a digit character list (most significant first); `none` if the
list is empty or contains a non-digit. -/
def natOfDigits (cs : List Char) : Option Nat :=
  if cs.isEmpty || cs.any (fun c => !c.isDigit) then none
  else some (cs.foldl (fun a c => a * 10 + (c.toNat - 48)) 0)

/-- Value of a possibly-empty digit character list; `none` on a non-digit. -/
def natOfDigitsOpt (cs : List Char) : Option Nat :=
  if cs.any (fun c => !c.isDigit) then none
  else some (cs.foldl (fun a c => a * 10 + (c.toNat - 48)) 0)

/-- Mantissa of a decimal literal: `digits`, `digits.digits`, `digits.`,
or `.digits` (at least one digit overall).  The value is returned as a
pair `(n, s)` denoting `n / 10 ^ s`, so that the rational is assembled
with a single `mkRat` (kernel-reducible) at the end. -/
def parseMantissa (cs : List Char) : Option (Nat × Nat) :=
  match splitAtFirst (fun c => c == '.') cs with
  | (ip, none) => (natOfDigits ip).map (fun n => (n, 0))
  | (ip, some fp) =>
    if ip.isEmpty && fp.isEmpty then none
    else
      match natOfDigitsOpt ip, natOfDigitsOpt fp with
      | some i, some f => some (i * 10 ^ fp.length + f, fp.length)
      | _, _ => none

/-- Exponent part of a decimal literal: optional sign, then digits. -/
def parseExp (cs : List Char) : Option Int :=
  match cs with
  | '+' :: rest => (natOfDigits rest).map (fun n => (n : Int))
  | '-' :: rest => (natOfDigits rest).map (fun n => -(n : Int))
  | rest => (natOfDigits rest).map (fun n => (n : Int))

/-- Rational value `n / 10 ^ s` scaled by `10 ^ e`, built from integer
arithmetic and one `mkRat`. -/
def scaledValue (n s : Nat) (e : Int) : ℚ :=
  if 0 ≤ e - (s : Int) then mkRat ((n : Int) * (powNat 10 (e - (s : Int)).toNat : Int)) 1
  else mkRat (n : Int) (powNat 10 ((s : Int) - e).toNat)

/-- Unsigned decimal literal: mantissa with optional `e`/`E` exponent. -/
def parseDecimal (cs : List Char) : Option ℚ :=
  match splitAtFirst (fun c => c == 'e' || c == 'E') cs with
  | (m, none) => (parseMantissa m).map (fun p => scaledValue p.1 p.2 0)
  | (m, some ex) =>
    match parseMantissa m, parseExp ex with
    | some p, some e => some (scaledValue p.1 p.2 e)
    | _, _ => none

/-- Negation of a rational via `mkRat` (kernel-reducible, unlike
`Rat.neg`); provably equal to `-q`. -/
def ratNegate (q : ℚ) : ℚ :=
  mkRat (-q.num) q.den

/-- Negate a Python float value (used to apply a leading `-` sign, and
for rounding negative values by symmetry). -/
def pyNeg : PyFloat → PyFloat
  | .finite q => .finite (ratNegate q)
  | .inf => .neginf
  | .neginf => .inf
  | .nan => .nan

/-- Round to the nearest integer, ties to the even neighbour (the IEEE
round-to-nearest-even rule on an exactly scaled value). -/
def roundHalfEven (q : ℚ) : Int :=
  let fl := ⌊q⌋
  let mid := mkRat (2 * fl + 1) 2
  if q < mid then fl
  else if mid < q then fl + 1
  else if fl % 2 = 0 then fl else fl + 1

/-- The rational `2 ^ k`, built with `mkRat`. -/
def powTwoQ (k : Int) : ℚ :=
  if 0 ≤ k then mkRat (powNat 2 k.toNat : Nat) 1 else mkRat 1 (powNat 2 (-k).toNat)

/-- The rational `a * 2 ^ k`, built with `mkRat`. -/
def ratScale2 (a : ℚ) (k : Int) : ℚ :=
  if 0 ≤ k then mkRat (a.num * (powNat 2 k.toNat : Int)) a.den
  else mkRat a.num (a.den * powNat 2 (-k).toNat)

/-- The exponent `e` with `2 ^ e ≤ a < 2 ^ (e + 1)` for positive `a`:
a bit-length estimate corrected by direct comparison. -/
def log2floorQ (a : ℚ) : Int :=
  let e0 : Int := (log2Nat a.num.natAbs : Int) - (log2Nat a.den : Int)
  if powTwoQ (e0 + 1) ≤ a then e0 + 1
  else if powTwoQ e0 ≤ a then e0
  else e0 - 1

/-- Smallest positive value that IEEE-754 binary64 rounds up to
infinity: the midpoint `2 ^ 1024 - 2 ^ 970` between the largest finite
double and `2 ^ 1024` (ties round to the even `2 ^ 1024`). -/
def binary64Overflow : ℚ :=
  mkRat (powNat 2 1024 - powNat 2 970 : Nat) 1

/-- Correctly rounded conversion of a positive rational to IEEE-754
binary64 (round to nearest, ties to even), as CPython's `float()`
performs on the exact decimal value: overflow gives infinity, normal
values round at 53 significant bits, and values below `2 ^ -1022` round
on the fixed subnormal grid `2 ^ -1074` (underflowing to zero). -/
def roundFloatPos (a : ℚ) : PyFloat :=
  if binary64Overflow ≤ a then .inf
  else if log2floorQ a < -1022 then
    .finite (mkRat (roundHalfEven (ratScale2 a 1074)) (powNat 2 1074))
  else
    .finite (ratScale2 (mkRat (roundHalfEven (ratScale2 a (52 - log2floorQ a))) 1)
      (log2floorQ a - 52))

/-- Correctly rounded conversion of an exact rational to a binary64
value (sign-symmetric; zero maps to zero). -/
def roundFloat (q : ℚ) : PyFloat :=
  if q = 0 then .finite 0
  else if q < 0 then pyNeg (roundFloatPos (ratNegate q))
  else roundFloatPos q

/-- Unsigned part of `float()` parsing: a decimal literal, rounded to
binary64 exactly as CPython's correctly rounded conversion does, else
the case-insensitive tokens `inf`, `infinity`, `nan`. -/
def pyFloatCore (cs : List Char) : Option PyFloat :=
  match parseDecimal cs with
  | some q => some (roundFloat q)
  | none =>
    let l := cs.map Char.toLower
    if l = "inf".data || l = "infinity".data then some .inf
    else if l = "nan".data then some .nan
    else none

/-- Sign handling of `float()` parsing, over the character list. -/
def pyFloatList : List Char → Option PyFloat
  | [] => none
  | c :: rest =>
    if c = '+' then pyFloatCore rest
    else if c = '-' then (pyFloatCore rest).map pyNeg
    else pyFloatCore (c :: rest)

/-- Strip ASCII whitespace from both ends of a character list. -/
def stripList (cs : List Char) : List Char :=
  ((cs.dropWhile Char.isWhitespace).reverse.dropWhile Char.isWhitespace).reverse

/-- PEP 515 validity: every underscore is immediately preceded and
followed by a digit (CPython validates exactly this before discarding
underscores in `float()` input). -/
def validUnderscores (prev : Option Char) : List Char → Bool
  | [] => true
  | c :: rest =>
    if c = '_' then
      (match prev with
       | some p => p.isDigit
       | none => false)
        && (match rest with
            | r :: _ => r.isDigit
            | [] => false)
        && validUnderscores (some c) rest
    else validUnderscores (some c) rest

/-- Validate and discard PEP 515 underscores; `none` when an underscore
is not surrounded by digits. -/
def stripUnderscores (cs : List Char) : Option (List Char) :=
  if validUnderscores none cs then some (cs.filter (fun c => !(c == '_'))) else none

/-- Model of Python builtin `float(text)`: `none` when it raises
`ValueError`.  Surrounding whitespace is stripped, PEP 515 underscores
are validated and discarded, and the decimal value is correctly rounded
to binary64.  Covers the ASCII grammar (non-ASCII digit and space forms
are outside the modelled fragment). -/
def pyFloat (s : String) : Option PyFloat :=
  match stripUnderscores (stripList s.data) with
  | none => none
  | some cs => pyFloatList cs

/-- Truncation toward zero of a rational, Python `int(float)` on finite
values. -/
def ratTrunc (q : ℚ) : Int :=
  if 0 ≤ q then ⌊q⌋ else ⌈q⌉

/-- Model of Python `int(f)` on a float: truncation on finite values,
`OverflowError` on infinities, `ValueError` on `nan`. -/
def pyIntOfFloat : PyFloat → Except PyErr Int
  | .finite q => .ok (ratTrunc q)
  | .inf => .error .overflowError
  | .neginf => .error .overflowError
  | .nan => .error .valueError

/-- Python `f == n` between a float and an int (exact comparison;
`nan` compares unequal to everything). -/
def pyFloatEqInt (f : PyFloat) (n : Int) : Bool :=
  match f with
  | .finite q => q = (n : ℚ)
  | _ => false

/-- Typed simulation parameter: `bool | int | float | str`. -/
inductive SimulationParameter where
  | bool (b : Bool)
  | int (n : Int)
  | float (f : PyFloat)
  | str (s : String)
deriving DecidableEq, Repr

/-- Variant configuration: the abstract properties every concrete
`ParameterFile` subclass supplies. -/
structure Variant where
  quotes_around_string : Bool
  true_string : String
  false_string : String
deriving DecidableEq, Repr

/-- Concrete variant of `cholla.ParameterFile`: no quotes on write,
sentinels `"1"` and `"0"`. -/
def cholla : Variant := ⟨false, "1", "0"⟩

/-- Concrete variant of `nautilus.ParameterFile`: identical property
values to the cholla variant. -/
def nautilus : Variant := ⟨false, "1", "0"⟩

/-- Python `text[1:-1]`: drop the first and the last character. -/
def pySlice1toNeg1 (s : String) : String :=
  ⟨(s.data.drop 1).dropLast⟩

/-- Python `text.startswith('"')`: the first character is a double
quote.  (Defined on the character list so that it kernel-reduces.) -/
def startsWithQuote (s : String) : Bool :=
  match s.data with
  | c :: _ => c = '"'
  | [] => false

/-- Fallback branch of `ParameterFile.__convert_to_correct_type`, reached
when a `ValueError` was caught: sentinel booleans, then the
quote-stripping rule, else the raw string. -/
def convertFallback (v : Variant) (text : String) : SimulationParameter :=
  if text = v.true_string then .bool true
  else if text = v.false_string then .bool false
  else if startsWithQuote text then .str (pySlice1toNeg1 text)
  else .str text

/-- Model of `ParameterFile.__convert_to_correct_type`: try
`float(text)`; on success compare with `int(float(text))` and collapse to
an integer when equal; a `ValueError` (from `float` or from `int(nan)`)
selects the fallback branch; an `OverflowError` (from `int(inf)`)
escapes uncaught. -/
def convert_to_correct_type (v : Variant) (text : String) :
    Except PyErr SimulationParameter :=
  match pyFloat text with
  | none => .ok (convertFallback v text)
  | some f =>
    match pyIntOfFloat f with
    | .ok n => .ok (if pyFloatEqInt f n then .int n else .float f)
    | .error .valueError => .ok (convertFallback v text)
    | .error e => .error e

/-- The spec's type-coercion cascade, following the spec's words: (a) a
float parse whose integer truncation round-trips exactly is stored as an
integer; (b) else a successful float parse is stored as a float; (c) else
a sentinel match is stored as a boolean; (d) else a value wrapped per the
quote convention has its first and last characters stripped (the spec's
design notes record that stripping is keyed on the leading quote alone);
(e) else the raw string is stored. -/
def convertSpec (v : Variant) (text : String) : SimulationParameter :=
  match pyFloat text with
  | some (.finite q) =>
    if (ratTrunc q : ℚ) = q then .int (ratTrunc q) else .float (.finite q)
  | some f => .float f
  | none =>
    if text = v.true_string then .bool true
    else if text = v.false_string then .bool false
    else if startsWithQuote text then .str (pySlice1toNeg1 text)
    else .str text

/-! ### Serialization: `__convert_to_string` and `write` -/

/-- Decimal digits of `n`, least significant first, with explicit fuel so
that the definition is structurally recursive (and kernel-reducible).
With `fuel ≥ n` the result is the full digit list; `natDigitsRev` always
passes `n` itself as fuel. -/
def natDigitsRevFuel : Nat → Nat → List Char
  | 0, _ => []
  | fuel + 1, n =>
    if n = 0 then [] else Char.ofNat (48 + n % 10) :: natDigitsRevFuel fuel (n / 10)

/-- Decimal digits of `n`, least significant first (empty for `0`). -/
def natDigitsRev (n : Nat) : List Char :=
  natDigitsRevFuel n n

/-- Decimal representation of a natural number, Python `str(n)`. -/
def natRepr (n : Nat) : String :=
  if n = 0 then "0" else ⟨(natDigitsRev n).reverse⟩

/-- Decimal representation of an integer, Python `f-string` `:d` format. -/
def intRepr (n : Int) : String :=
  if n < 0 then "-" ++ natRepr n.natAbs else natRepr n.natAbs

/-- Floor of the base-10 logarithm with explicit fuel. -/
def log10Fuel : Nat → Nat → Nat
  | 0, _ => 0
  | fuel + 1, n => if n < 10 then 0 else 1 + log10Fuel fuel (n / 10)

/-- Floor of the base-10 logarithm of a positive natural number. -/
def log10 (n : Nat) : Nat :=
  log10Fuel n n

/-- The rational `10 ^ k`, built with `mkRat`. -/
def powTenQ (k : Int) : ℚ :=
  if 0 ≤ k then mkRat (10 ^ k.toNat) 1 else mkRat 1 (10 ^ (-k).toNat)

/-- Absolute value of a rational via `ratNegate`. -/
def ratAbs (q : ℚ) : ℚ :=
  if q < 0 then ratNegate q else q

/-- The exponent `e` with `10 ^ e ≤ a < 10 ^ (e + 1)` for positive `a`:
a digit-length estimate corrected by direct comparison. -/
def decExponent (a : ℚ) : Int :=
  let e0 : Int := (log10 a.num.natAbs : Int) - (log10 a.den : Int)
  if powTenQ (e0 + 1) ≤ a then e0 + 1
  else if powTenQ e0 ≤ a then e0
  else e0 - 1

/-- The rational `a * 10 ^ k`, built with `mkRat`. -/
def ratScale (a : ℚ) (k : Int) : ℚ :=
  if 0 ≤ k then mkRat (a.num * 10 ^ k.toNat) a.den
  else mkRat a.num (a.den * 10 ^ (-k).toNat)

/-- Left-pad a character list with zeros to width `w`. -/
def padLeftZeros (cs : List Char) (w : Nat) : List Char :=
  List.replicate (w - cs.length) '0' ++ cs

/-- Decimal digit characters of `n`, most significant first. -/
def natDigitChars (n : Nat) : List Char :=
  if n = 0 then ['0'] else (natDigitsRev n).reverse

/-- Python `f-string` `:.15e` formatting of a finite float, on the exact
rational model: one leading digit, 15 fractional digits (half-even
rounding), and a signed two-digit-minimum exponent. -/
def pyFormat15e (q : ℚ) : String :=
  if q = 0 then "0.000000000000000e+00"
  else
    let sign := if q < 0 then "-" else ""
    let a := ratAbs q
    let e := decExponent a
    let r := roundHalfEven (ratScale a (15 - e))
    let re := if r = 10 ^ 16 then ((10 ^ 15 : Int), e + 1) else (r, e)
    let expPart :=
      (if re.2 < 0 then "-" else "+") ++
        String.mk (padLeftZeros (natDigitChars re.2.natAbs) 2)
    match padLeftZeros (natDigitChars re.1.toNat) 16 with
    | d :: rest => sign ++ String.mk [d] ++ "." ++ String.mk rest ++ "e" ++ expPart
    | [] => ""

/-- Model of `ParameterFile.__convert_to_string`: integer-valued floats
render as bare integers (the comparison `val == int(val)` itself raises
on non-finite floats), other floats in 15-digit scientific notation,
booleans as the variant's sentinels, integers in decimal, and strings
with quotes per the variant's `_quotes_around_string` flag. -/
def convert_to_string (v : Variant) (val : SimulationParameter) :
    Except PyErr String :=
  match val with
  | .float (.finite q) =>
    .ok (if (ratTrunc q : ℚ) = q then intRepr (ratTrunc q) else pyFormat15e q)
  | .float .inf => .error .overflowError
  | .float .neginf => .error .overflowError
  | .float .nan => .error .valueError
  | .bool true => .ok v.true_string
  | .bool false => .ok v.false_string
  | .int n => .ok (intRepr n)
  | .str s => .ok (if v.quotes_around_string then "\"" ++ s ++ "\"" else s)

/-- Model of `ParameterFile.write`: one `key=value` line per mapping
entry, in insertion order (the file is modelled as its list of lines). -/
def ParameterFile.write (v : Variant) (params : List (String × SimulationParameter)) :
    Except PyErr (List String) :=
  params.mapM (fun kv => (convert_to_string v kv.2).map (fun s => kv.1 ++ "=" ++ s))

/-! ### Reading: `configparser`-lite line parsing plus coercion -/

/-- Python `str.strip()` (ASCII whitespace). -/
def pyStrip (s : String) : String :=
  ⟨stripList s.data⟩

/-- Python `str.lower()`, the default `configparser.optionxform`. -/
def lowerStr (s : String) : String :=
  ⟨s.data.map Char.toLower⟩

/-- Key/value assembly from a delimiter split: a delimiter-free line is
a parse error, else the stripped lower-cased key with the stripped
value. -/
def mkKV (p : List Char × Option (List Char)) :
    Except PyErr (Option (String × String)) :=
  match p with
  | (_, none) => .error .parseError
  | (k, some rest') => .ok (some (lowerStr ⟨stripList k⟩, ⟨stripList rest'⟩))

/-- One stripped line of the `configparser` pass: `none` for a blank or
comment line, else the key/value split at the first `=` or `:`. -/
def parseLineCore : List Char → Except PyErr (Option (String × String))
  | [] => .ok none
  | c :: cs =>
    if c = '#' || c = ';' then .ok none
    else mkKV (splitAtFirst (fun ch => ch == '=' || ch == ':') (c :: cs))

/-- One line of the `configparser` pass, after stripping. -/
def parseLine (line : String) : Except PyErr (Option (String × String)) :=
  parseLineCore (stripList line.data)

/-- Line-level pass of `configparser` over a flat section: skip blank
and comment lines, split each remaining line at the first `=` or `:`,
strip and lower-case the key, strip the value; a delimiter-free line or
a duplicate key is a parse error. -/
def parseLinesAux (acc : List (String × String)) :
    List String → Except PyErr (List (String × String))
  | [] => .ok acc
  | line :: rest =>
    match parseLine line with
    | .error e => .error e
    | .ok none => parseLinesAux acc rest
    | .ok (some kv) =>
      if acc.any (fun x => x.1 = kv.1) then .error .parseError
      else parseLinesAux (acc ++ [kv]) rest

/-- Parse a flat parameter file (as its list of lines) into key/value
strings, in file order. -/
def parseLines (lines : List String) : Except PyErr (List (String × String)) :=
  parseLinesAux [] lines

/-- Model of `ParameterFile.read`: `configparser` parses every line
first, then each value string is coerced in order. -/
def ParameterFile.read (v : Variant) (lines : List String) :
    Except PyErr (List (String × SimulationParameter)) := do
  let kvs ← parseLines lines
  kvs.mapM (fun kv => (convert_to_correct_type v kv.2).map (fun p => (kv.1, p)))

/-! ### Simulation status: log-file scanning -/

/-- A file in a simulation folder: name, modification time, text
content. -/
structure FsFile where
  name : String
  mtime : Nat
  content : String
deriving DecidableEq, Repr

/-- Python's substring test `needle in hay` on character lists. -/
def listContainsSub (needle : List Char) : List Char → Bool
  | [] => needle.isEmpty
  | c :: t => needle.isPrefixOf (c :: t) || listContainsSub needle t

/-- Python's substring test `needle in hay` on strings. -/
def strContainsSub (hay needle : String) : Bool :=
  listContainsSub needle.data hay.data

/-- Glob pattern `slurm*.out`: a `slurm` prefix, a `.out` suffix, and
enough length that the two do not overlap. -/
def globSlurmOut (name : String) : Bool :=
  List.isPrefixOf "slurm".data name.data
    && List.isPrefixOf ".out".data.reverse name.data.reverse
    && decide (9 ≤ name.data.length)

/-- Content filter of `Simulation.slurm_files`: the file mentions a
FLASH start-up marker. -/
def isFlashFile (f : FsFile) : Bool :=
  strContainsSub f.content "Driver init all done"
    || strContainsSub f.content "RuntimeParameters"

/-- Modification-time order used by `files.sort(key=os.path.getmtime)`. -/
def mtimeLE (a b : FsFile) : Prop :=
  a.mtime ≤ b.mtime

instance : DecidableRel mtimeLE := fun a b => Nat.decLe a.mtime b.mtime

instance : IsTotal FsFile mtimeLE := ⟨fun a b => Nat.le_total a.mtime b.mtime⟩

instance : IsTrans FsFile mtimeLE := ⟨fun _ _ _ => Nat.le_trans⟩

/-- Model of `cholla.Simulation.slurm_files`: glob `slurm*.out`, sort by
modification time (a stable sort, like Python's; any two stable sorts by
the same key agree), keep the files showing a FLASH start-up marker. -/
def slurm_files (folder : List FsFile) : List FsFile :=
  ((folder.filter (fun f => globSlurmOut f.name)).insertionSort
      mtimeLE).filter isFlashFile

/-- Model of `cholla.Simulation.complete`: false with no qualifying
SLURM file, else the success marker is searched in the last one. -/
def cholla_complete (folder : List FsFile) : Bool :=
  match (slurm_files folder).getLast? with
  | none => false
  | some f => strContainsSub f.content "reached max SimTime"

/-- Model of `cholla.Simulation.reason_incomplete`: asserts the
simulation is not complete, returns `"not ran"` with no qualifying SLURM
file, else classifies the last one by ordered marker search. -/
def cholla_reason_incomplete (folder : List FsFile) : Except PyErr String :=
  if cholla_complete folder then .error .assertionError
  else
    match (slurm_files folder).getLast? with
    | none => .ok "not ran"
    | some f =>
      .ok (if strContainsSub f.content "DUE TO TIME LIMIT" then "time limit"
        else if strContainsSub f.content "DUE TO PREEMPTION" then "preemption"
        else if strContainsSub f.content "DRIVER_ABORT" then "crashed"
        else "unknown")

/-- Model of `cholla.Simulation.failed`: false when complete, else the
classification is neither `"unknown"` nor `"not ran"`. -/
def cholla_failed (folder : List FsFile) : Except PyErr Bool :=
  if cholla_complete folder then .ok false
  else (cholla_reason_incomplete folder).map
    (fun r => !(r = "unknown" || r = "not ran"))

/-- The `output.log` file of a nautilus simulation folder, when it
exists. -/
def nautilusLog (folder : List FsFile) : Option FsFile :=
  folder.find? (fun f => f.name = "output.log")

/-- Model of `nautilus.Simulation.complete`: false when `output.log`
does not exist, else its content is searched for the success marker. -/
def nautilus_complete (folder : List FsFile) : Bool :=
  match nautilusLog folder with
  | none => false
  | some f => strContainsSub f.content "Integration complete"

/-! ### SimulationGrid: folder discovery -/

/-- A directory tree: named text files (as line lists) and named
subdirectories. -/
inductive Dir where
  | mk (files : List (String × List String)) (subdirs : List (String × Dir))

/-- The files of a directory. -/
def Dir.files : Dir → List (String × List String)
  | .mk fs _ => fs

/-- The subdirectories of a directory. -/
def Dir.subdirs : Dir → List (String × Dir)
  | .mk _ ds => ds

/-- Model of `nautilus.SimulationGrid._is_sim_folder`: the folder
contains an `input.txt` file. -/
def Dir.isSimFolder (d : Dir) : Bool :=
  d.files.any (fun f => f.1 = "input.txt")

/-- Content of a named file in a directory, when present. -/
def Dir.fileContent (d : Dir) (name : String) : Option (List String) :=
  (d.files.find? (fun f => f.1 = name)).map Prod.snd

mutual

/-- Model of `root_path.rglob("*/")`: every strict descendant directory,
each exactly once (mutual structural recursion with its list form). -/
def rglobDirs : Dir → List Dir
  | .mk _ subs => rglobSubdirs subs

/-- List form of `rglobDirs` over the named subdirectories. -/
def rglobSubdirs : List (String × Dir) → List Dir
  | [] => []
  | (_, d) :: rest => (d :: rglobDirs d) ++ rglobSubdirs rest

end

/-- Model of `SimulationGrid.sim_paths` for one search root: the root
itself when it matches, then every matching descendant. -/
def simPathsOne (d : Dir) : List Dir :=
  (if d.isSimFolder then [d] else []) ++ (rglobDirs d).filter Dir.isSimFolder

/-- Model of `SimulationGrid.sim_paths` over the normalized list of
search roots. -/
def sim_paths (roots : List Dir) : List Dir :=
  roots.flatMap simPathsOne

/-- A constructed nautilus `Simulation`: its eagerly loaded parameter
mapping. -/
structure Simulation where
  params : List (String × SimulationParameter)
deriving DecidableEq

/-- Model of `nautilus.Simulation.__init__` with the default parameter
file name: open and read `input.txt`. -/
def nautilusSimInit (d : Dir) : Except PyErr Simulation :=
  match d.fileContent "input.txt" with
  | none => .error .fileNotFoundError
  | some lines => (ParameterFile.read nautilus lines).map Simulation.mk

/-- Model of `SimulationGrid.__init__` over nautilus roots: discover
folders, construct every `Simulation` (`self.sims`), and assert the list
is non-empty (the `EmptyGridError` of the spec is this assertion). -/
def SimulationGrid.init (roots : List Dir) : Except PyErr (List Simulation) := do
  let sims ← (sim_paths roots).mapM nautilusSimInit
  if sims.length > 0 then pure sims else .error .assertionError

mutual

/-- Structural count of the folders in a tree satisfying the simulation
predicate (spec-side description of "N matching folders, nested at any
depths"). -/
def countSimFolders : Dir → Nat
  | .mk files subs =>
    (if files.any (fun f => f.1 = "input.txt") then 1 else 0) + countSimFoldersList subs

/-- List form of `countSimFolders` over the named subdirectories. -/
def countSimFoldersList : List (String × Dir) → Nat
  | [] => 0
  | (_, d) :: rest => countSimFolders d + countSimFoldersList rest

end

/-! ### Item assignment -/

/-- Python dict assignment `params[key] = value`: replace in place when
the key exists, else append. -/
def dictSet (params : List (String × SimulationParameter)) (key : String)
    (v : SimulationParameter) : List (String × SimulationParameter) :=
  if params.any (fun kv => kv.1 = key) then
    params.map (fun kv => if kv.1 = key then (kv.1, v) else kv)
  else params ++ [(key, v)]

/-- Model of `ParameterFile.__setitem__`: the updated mapping, paired
with whether the unknown-key warning was emitted. -/
def ParameterFile.setitem (params : List (String × SimulationParameter))
    (key : String) (v : SimulationParameter) :
    List (String × SimulationParameter) × Bool :=
  (dictSet params key v, !params.any (fun kv => kv.1 = key))

/-! ### Round-trip side conditions -/

/-- Neither end of the character list is whitespace (so stripping is the
identity). -/
def noEdgeWs (cs : List Char) : Bool :=
  (match cs.head? with
   | some c => !c.isWhitespace
   | none => true)
  && (match cs.getLast? with
      | some c => !c.isWhitespace
      | none => true)

/-- A parameter-file key that survives the `configparser` round trip
unchanged: non-empty, free of whitespace and of the `=`/`:` delimiters,
already lower-case, and not starting a comment line or section
header. -/
def goodKey (k : String) : Bool :=
  !k.data.isEmpty
    && k.data.all (fun c =>
        !c.isWhitespace && !(c == '=') && !(c == ':') && (c.toLower == c))
    && !(k.data.head? == some '#') && !(k.data.head? == some ';')
    && !(k.data.head? == some '[')

/-- Image of a typed value under the write-then-read round trip of the
concrete variants: booleans collapse to their numeric sentinels and
integer-valued floats collapse to integers; other values persist. -/
def collapseParam : SimulationParameter → SimulationParameter
  | .bool b => .int (if b then 1 else 0)
  | .int n => .int n
  | .float (.finite q) => .int (ratTrunc q)
  | .float f => .float f
  | .str s => .str s

/-- Values for which the round trip is exact up to `collapseParam`:
booleans always; integers when their magnitude stays below `2 ^ 53`, so
that the read-back `float()` conversion is exact; floats only when
finite and integer-valued with the same magnitude bound (other floats
round in the 15-digit serialization or in binary64); strings when they
are not re-coerced on read (no numeric parse, not a sentinel, no
leading quote) and are stable under stripping and the line model (no
edge whitespace, no newline characters). -/
def goodVal (v : Variant) : SimulationParameter → Bool
  | .bool _ => true
  | .int n => decide (n.natAbs < 2 ^ 53)
  | .float (.finite q) =>
    decide ((ratTrunc q : ℚ) = q) && decide ((ratTrunc q).natAbs < 2 ^ 53)
  | .float _ => false
  | .str s =>
    decide (pyFloat s = none) && decide (s ≠ v.true_string)
      && decide (s ≠ v.false_string) && !startsWithQuote s && noEdgeWs s.data
      && s.data.all (fun c => !(c == '\n') && !(c == '\r'))

/-- The serialized form of a value whose serialization succeeds (used to
phrase the round-trip lemmas; junk on the failing non-finite floats). -/
def encodeParam (v : Variant) (val : SimulationParameter) : String :=
  match convert_to_string v val with
  | .ok s => s
  | .error _ => ""

example : pyFloat "2" = some (.finite 2) := by decide
example : pyFloat "2.5" = some (.finite (mkRat 5 2)) := by decide
example : pyFloat "-3" = some (.finite (mkRat (-3) 1)) := by decide
example : pyFloat "inf" = some .inf := by decide
example : pyFloat "-inf" = some .neginf := by decide
example : pyFloat "NaN" = some .nan := by decide
example : pyFloat "run1" = none := by decide
example : pyFloat "" = none := by decide
example : pyFloat "1e2" = some (.finite 100) := by decide
example : pyFloat "2.500000000000000e+00" = some (.finite (mkRat 5 2)) := by decide
example : pyFloat "1e309" = some .inf := by decide
example : pyFloat "-1e309" = some .neginf := by decide
example : pyFloat "1e-400" = some (.finite 0) := by decide
example : pyFloat "1_0" = some (.finite 10) := by decide
example : pyFloat "1_" = none := by decide
example : pyFloat "_1" = none := by decide
example : pyFloat "1__0" = none := by decide
example : pyFloat " 2.5 " = some (.finite (mkRat 5 2)) := by decide
example : pyFloat "0.1" = some (.finite (mkRat 3602879701896397 (powNat 2 55))) := by
  decide
example : pyFloat "9007199254740993"
    = some (.finite ((9007199254740992 : Nat) : ℚ)) := by decide
example : convert_to_correct_type cholla "1" = .ok (.int 1) := by decide
example : convert_to_correct_type cholla "2.5" = .ok (.float (.finite (mkRat 5 2))) := by decide
example : convert_to_correct_type cholla "abc" = .ok (.str "abc") := by decide
example : convert_to_correct_type cholla "\"run1\"" = .ok (.str "run1") := by decide
example : convert_to_correct_type cholla "inf" = .error .overflowError := by decide
example : convert_to_correct_type cholla "1e309" = .error .overflowError := by decide
example : convert_to_correct_type cholla "1e-400" = .ok (.int 0) := by decide
example : convert_to_correct_type cholla "1e23"
    = .ok (.int 99999999999999991611392) := by decide
example : convert_to_correct_type cholla "nan" = .ok (.str "nan") := by decide

example : intRepr 10 = "10" := by decide
example : intRepr (-3) = "-3" := by decide
example : intRepr 0 = "0" := by decide
example : pyFormat15e (mkRat 5 2) = "2.500000000000000e+00" := by decide
example : pyFormat15e (mkRat (-1) 20) = "-5.000000000000000e-02" := by decide
example : pyStrip "  a b " = "a b" := by decide
example : lowerStr "AbC" = "abc" := by decide
example : parseLines ["steps=10", "", "# note", "Name = run1"] =
    .ok [("steps", "10"), ("name", "run1")] := by decide
example : ParameterFile.write cholla [("steps", .int 10), ("restart", .bool false)] =
    .ok ["steps=10", "restart=0"] := by decide
example : ParameterFile.read cholla ["steps=10", "restart=0", "name=run1"] =
    .ok [("steps", .int 10), ("restart", .int 0), ("name", .str "run1")] := by decide
example : strContainsSub "abc reached max SimTime xyz" "reached max SimTime" = true := by
  decide
example : globSlurmOut "slurm-123.out" = true := by decide
example : globSlurmOut "slurm.out" = true := by decide
example : globSlurmOut "foo.out" = false := by decide
example : cholla_complete [] = false := by decide
example :
    cholla_complete
      [⟨"slurm-1.out", 1, "RuntimeParameters"⟩,
       ⟨"slurm-2.out", 2, "RuntimeParameters and reached max SimTime"⟩] = true := by decide
example :
    cholla_reason_incomplete
      [⟨"slurm-1.out", 1, "RuntimeParameters then DUE TO TIME LIMIT"⟩] =
      .ok "time limit" := by decide
example : nautilus_complete [⟨"output.log", 0, "Integration complete"⟩] = true := by decide
example :
    SimulationGrid.init [.mk [("input.txt", ["a=1"])] []] =
      .ok [⟨[("a", .int 1)]⟩] := by decide
example : SimulationGrid.init [.mk [] []] = .error .assertionError := by decide
example :
    (sim_paths [.mk [("input.txt", [])] [("sub", .mk [("input.txt", [])] [])]]).length
      = 2 := by decide

/-! ### Helper lemmas: the qualifying-log list is sorted by mtime -/

/-- The qualifying SLURM-file list is sorted by modification time. -/
lemma slurm_files_pairwise (folder : List FsFile) :
    (slurm_files folder).Pairwise mtimeLE := by
  unfold slurm_files
  exact ((List.sorted_insertionSort mtimeLE _).sublist (List.filter_sublist _))

/-- In a list sorted by `mtimeLE`, every element's mtime is at most the
last element's. -/
lemma pairwise_getLast_max :
    ∀ (l : List FsFile), l.Pairwise mtimeLE → ∀ g ∈ l, ∀ (h : l ≠ []),
      g.mtime ≤ (l.getLast h).mtime := by
  intro l
  induction l with
  | nil => intro _ g hg; exact absurd hg (List.not_mem_nil g)
  | cons a t ih =>
    intro hp g hg h
    rcases List.pairwise_cons.mp hp with ⟨ha, ht⟩
    cases t with
    | nil =>
      rcases List.mem_singleton.mp hg with rfl
      simp [List.getLast]
    | cons b t' =>
      rw [List.getLast_cons (by simp)]
      rcases List.mem_cons.mp hg with rfl | hg'
      · exact ha _ (List.getLast_mem (by simp))
      · exact ih ht g hg' (by simp)

/-! ### C4: `complete` scans the most recent qualifying log artifact -/

/-- C4.  For every simulation folder, the `complete` query is false when
no qualifying log artifact exists, and otherwise equals the search for
the variant's success marker in a qualifying artifact of maximal
modification time (cholla), respectively in the fixed `output.log`
(nautilus). -/
theorem complete_queries_latest_log (folder : List FsFile) :
    (slurm_files folder = [] → cholla_complete folder = false)
    ∧ (∀ _ : slurm_files folder ≠ [], ∃ f ∈ slurm_files folder,
        (∀ g ∈ slurm_files folder, g.mtime ≤ f.mtime)
        ∧ cholla_complete folder = strContainsSub f.content "reached max SimTime")
    ∧ (nautilusLog folder = none → nautilus_complete folder = false)
    ∧ (∀ f, nautilusLog folder = some f →
        nautilus_complete folder = strContainsSub f.content "Integration complete") := by
  refine ⟨fun h => ?_, fun h => ?_, fun h => ?_, fun f hf => ?_⟩
  · simp [cholla_complete, h]
  · refine ⟨(slurm_files folder).getLast h, List.getLast_mem h,
      fun g hg => pairwise_getLast_max _ (slurm_files_pairwise folder) g hg h, ?_⟩
    simp [cholla_complete, List.getLast?_eq_getLast _ h]
  · simp [nautilus_complete, h]
  · simp [nautilus_complete, hf]

/-- Concrete instantiation of `complete_queries_latest_log`: a folder
with two qualifying SLURM files (the later one holding the success
marker) and a nautilus log. -/
theorem complete_queries_latest_log_witness :
    (∃ f ∈ slurm_files
        [⟨"slurm-1.out", 1, "RuntimeParameters"⟩,
         ⟨"slurm-2.out", 2, "RuntimeParameters reached max SimTime"⟩],
      (∀ g ∈ slurm_files
          [⟨"slurm-1.out", 1, "RuntimeParameters"⟩,
           ⟨"slurm-2.out", 2, "RuntimeParameters reached max SimTime"⟩],
        g.mtime ≤ f.mtime)
      ∧ cholla_complete
          [⟨"slurm-1.out", 1, "RuntimeParameters"⟩,
           ⟨"slurm-2.out", 2, "RuntimeParameters reached max SimTime"⟩]
          = strContainsSub f.content "reached max SimTime")
    ∧ nautilus_complete [⟨"output.log", 0, "Integration complete"⟩]
        = strContainsSub "Integration complete" "Integration complete" :=
  ⟨(complete_queries_latest_log _).2.1 (by decide),
   (complete_queries_latest_log _).2.2.2 ⟨"output.log", 0, "Integration complete"⟩
     (by decide)⟩

/-! ### C5: `reason_incomplete` classification -/

/-- On an incomplete simulation the classification returns a value from
the closed five-element set (shared helper). -/
lemma reason_incomplete_ok {folder : List FsFile}
    (hc : cholla_complete folder = false) :
    ∃ r, cholla_reason_incomplete folder = .ok r
      ∧ r ∈ (["not ran", "time limit", "preemption", "crashed", "unknown"] :
          List String) := by
  rcases he : (slurm_files folder).getLast? with _ | f
  · exact ⟨"not ran", by simp [cholla_reason_incomplete, hc, he], by simp⟩
  · refine ⟨if strContainsSub f.content "DUE TO TIME LIMIT" then "time limit"
      else if strContainsSub f.content "DUE TO PREEMPTION" then "preemption"
      else if strContainsSub f.content "DRIVER_ABORT" then "crashed"
      else "unknown",
      by simp only [cholla_reason_incomplete, hc, Bool.false_eq_true, if_false, he],
      by split_ifs <;> simp⟩

/-- C5.  For every folder with `complete` false: no qualifying artifact
gives `"not ran"`; otherwise the artifact of maximal mtime is scanned
for the three markers in order, the first match deciding the result and
no match giving `"unknown"`; and the result always lies in the closed
five-element set. -/
theorem reason_incomplete_classification (folder : List FsFile)
    (hc : cholla_complete folder = false) :
    (slurm_files folder = [] → cholla_reason_incomplete folder = .ok "not ran")
    ∧ (∀ _ : slurm_files folder ≠ [], ∃ f ∈ slurm_files folder,
        (∀ g ∈ slurm_files folder, g.mtime ≤ f.mtime)
        ∧ (strContainsSub f.content "DUE TO TIME LIMIT" = true →
            cholla_reason_incomplete folder = .ok "time limit")
        ∧ (strContainsSub f.content "DUE TO TIME LIMIT" = false →
           strContainsSub f.content "DUE TO PREEMPTION" = true →
            cholla_reason_incomplete folder = .ok "preemption")
        ∧ (strContainsSub f.content "DUE TO TIME LIMIT" = false →
           strContainsSub f.content "DUE TO PREEMPTION" = false →
           strContainsSub f.content "DRIVER_ABORT" = true →
            cholla_reason_incomplete folder = .ok "crashed")
        ∧ (strContainsSub f.content "DUE TO TIME LIMIT" = false →
           strContainsSub f.content "DUE TO PREEMPTION" = false →
           strContainsSub f.content "DRIVER_ABORT" = false →
            cholla_reason_incomplete folder = .ok "unknown"))
    ∧ ∃ r, cholla_reason_incomplete folder = .ok r
        ∧ r ∈ (["not ran", "time limit", "preemption", "crashed", "unknown"] :
            List String) := by
  refine ⟨fun h => ?_, fun h => ?_, ?_⟩
  · simp [cholla_reason_incomplete, hc, h]
  · refine ⟨(slurm_files folder).getLast h, List.getLast_mem h,
      fun g hg => pairwise_getLast_max _ (slurm_files_pairwise folder) g hg h,
      ?_, ?_, ?_, ?_⟩ <;>
      · intros
        simp_all [cholla_reason_incomplete, hc, List.getLast?_eq_getLast _ h]
  · exact reason_incomplete_ok hc

/-- Concrete instantiation of `reason_incomplete_classification`: an
empty folder is classified `"not ran"`, and the classification lies in
the closed set. -/
theorem reason_incomplete_classification_witness :
    (cholla_reason_incomplete [] = .ok "not ran")
    ∧ ∃ r, cholla_reason_incomplete [] = .ok r
        ∧ r ∈ (["not ran", "time limit", "preemption", "crashed", "unknown"] :
            List String) :=
  ⟨(reason_incomplete_classification [] (by decide)).1 (by decide),
   (reason_incomplete_classification [] (by decide)).2.2⟩

/-! ### C6: `failed` -/

/-- C6.  For every folder, `failed` is false when `complete` holds, and
otherwise it is true exactly when `reason_incomplete` is neither
`"unknown"` nor `"not ran"`. -/
theorem failed_iff_definite_reason (folder : List FsFile) :
    (cholla_complete folder = true → cholla_failed folder = .ok false)
    ∧ (cholla_complete folder = false →
        ∃ r, cholla_reason_incomplete folder = .ok r
          ∧ (cholla_failed folder = .ok true ↔ (r ≠ "unknown" ∧ r ≠ "not ran"))
          ∧ (cholla_failed folder = .ok false ↔ (r = "unknown" ∨ r = "not ran"))) := by
  constructor
  · intro h
    simp [cholla_failed, h]
  · intro h
    rcases reason_incomplete_ok h with ⟨r, hr, _⟩
    refine ⟨r, hr, ?_, ?_⟩ <;>
      · simp only [cholla_failed, h, Bool.false_eq_true, if_false, hr, Except.map]
        by_cases h1 : r = "unknown" <;> by_cases h2 : r = "not ran" <;>
          simp [h1, h2]

/-- Concrete instantiation of `failed_iff_definite_reason`: a folder
whose latest qualifying log shows a crash marker has `failed` true. -/
theorem failed_iff_definite_reason_witness :
    ∃ r, cholla_reason_incomplete
        [⟨"slurm-7.out", 4, "RuntimeParameters DRIVER_ABORT"⟩] = .ok r
      ∧ (cholla_failed [⟨"slurm-7.out", 4, "RuntimeParameters DRIVER_ABORT"⟩]
          = .ok true ↔ (r ≠ "unknown" ∧ r ≠ "not ran"))
      ∧ (cholla_failed [⟨"slurm-7.out", 4, "RuntimeParameters DRIVER_ABORT"⟩]
          = .ok false ↔ (r = "unknown" ∨ r = "not ran")) :=
  (failed_iff_definite_reason _).2 (by decide)

/-! ### C7: `reason_incomplete` asserts on a complete simulation -/

/-- C7.  For every folder on which `complete` is true, querying
`reason_incomplete` fails with the precondition assertion instead of
returning a classification. -/
theorem reason_incomplete_requires_incomplete (folder : List FsFile)
    (h : cholla_complete folder = true) :
    cholla_reason_incomplete folder = .error .assertionError := by
  simp [cholla_reason_incomplete, h]

/-- Concrete instantiation of `reason_incomplete_requires_incomplete`:
a folder whose log shows the success marker. -/
theorem reason_incomplete_requires_incomplete_witness :
    cholla_complete [⟨"slurm-1.out", 1, "RuntimeParameters reached max SimTime"⟩] = true
    ∧ cholla_reason_incomplete
        [⟨"slurm-1.out", 1, "RuntimeParameters reached max SimTime"⟩]
        = .error .assertionError :=
  ⟨by decide, reason_incomplete_requires_incomplete _ (by decide)⟩

/-! ### C9: item assignment always stores, warns exactly on new keys -/

/-- Looking a key up after the in-place replacement map used by
`dictSet`. -/
lemma lookup_map_replace (params : List (String × SimulationParameter))
    (key : String) (v : SimulationParameter) :
    List.lookup key (params.map (fun kv => if kv.1 = key then (kv.1, v) else kv))
      = (List.lookup key params).map (fun _ => v) := by
  induction params with
  | nil => rfl
  | cons kv rest ih =>
    obtain ⟨k, w⟩ := kv
    by_cases h : k = key
    · subst h
      rw [List.map_cons, if_pos (show (k, w).1 = k from rfl)]
      simp [List.lookup_cons_self]
    · have hne : (key == k) = false := beq_eq_false_iff_ne.mpr (Ne.symm h)
      rw [List.map_cons, if_neg (show ¬(k, w).1 = key from h)]
      simp [List.lookup_cons, hne, ih]

/-- A key is absent from the lookup exactly when no entry carries it. -/
lemma lookup_eq_none_iff_not_any (params : List (String × SimulationParameter))
    (key : String) :
    List.lookup key params = none ↔ params.any (fun kv => kv.1 = key) = false := by
  induction params with
  | nil => simp [List.lookup]
  | cons kv rest ih =>
    obtain ⟨k, w⟩ := kv
    by_cases h : k = key
    · subst h
      simp [List.lookup_cons_self]
    · have hne : (key == k) = false := beq_eq_false_iff_ne.mpr (Ne.symm h)
      simp [List.lookup_cons, hne, ih, h]

/-- Appending a fresh key to a mapping makes it found by lookup. -/
lemma lookup_append_single (params : List (String × SimulationParameter))
    (key : String) (v : SimulationParameter)
    (h : params.any (fun kv => kv.1 = key) = false) :
    List.lookup key (params ++ [(key, v)]) = some v := by
  induction params with
  | nil => simp [List.lookup]
  | cons kv rest ih =>
    obtain ⟨k, w⟩ := kv
    simp only [List.any_cons, Bool.or_eq_false_iff] at h
    have hk : k ≠ key := by simpa using h.1
    have hne : (key == k) = false := beq_eq_false_iff_ne.mpr (Ne.symm hk)
    simp [List.lookup_cons, hne, ih h.2]

/-- C9.  Item assignment always stores the value under the key, and the
unknown-key warning fires exactly when the key was absent beforehand. -/
theorem setitem_stores_and_warns (params : List (String × SimulationParameter))
    (key : String) (v : SimulationParameter) :
    List.lookup key (ParameterFile.setitem params key v).1 = some v
    ∧ ((ParameterFile.setitem params key v).2 = true ↔
        List.lookup key params = none) := by
  constructor
  · unfold ParameterFile.setitem dictSet
    by_cases h : params.any (fun kv => kv.1 = key) = true
    · rw [if_pos h, lookup_map_replace]
      rcases hl : List.lookup key params with _ | w
      · rw [(lookup_eq_none_iff_not_any params key).mp hl] at h
        exact absurd h (by simp)
      · rfl
    · rw [if_neg h]
      exact lookup_append_single params key v (by rwa [Bool.not_eq_true] at h)
  · unfold ParameterFile.setitem
    rw [lookup_eq_none_iff_not_any]
    simp

/-! ### C1: coercion precedence, compared with the spec's cascade -/

/-- Counterexample to C1 as universally stated: for the value string
`"inf"` the float parse succeeds, so the spec's cascade stores a float,
but the code raises an uncaught `OverflowError` in the truncation
check. -/
theorem convert_spec_mismatch_at_inf :
    convert_to_correct_type cholla "inf" = .error .overflowError
    ∧ convertSpec cholla "inf" = .float .inf
    ∧ convert_to_correct_type cholla "inf" ≠ .ok (convertSpec cholla "inf") := by
  decide

/-- C1 (amended).  For every variant and every value string whose float
parse fails or yields a finite value — that is, excluding the
`inf`/`infinity`/`nan` token family — the coercion follows the spec's
precedence cascade `convertSpec`. -/
theorem convert_matches_spec_on_finite (v : Variant) (text : String)
    (h : pyFloat text = none ∨ ∃ q, pyFloat text = some (.finite q)) :
    convert_to_correct_type v text = .ok (convertSpec v text) := by
  rcases h with h | ⟨q, h⟩
  · simp [convert_to_correct_type, convertSpec, convertFallback, h]
  · have hcomm : (q = (ratTrunc q : ℚ)) ↔ ((ratTrunc q : ℚ) = q) := eq_comm
    simp only [convert_to_correct_type, convertSpec, h, pyIntOfFloat, pyFloatEqInt]
    by_cases he : (ratTrunc q : ℚ) = q <;> simp [he, hcomm]

/-- Concrete instantiation of `convert_matches_spec_on_finite`: a plain
string value and a numeric value. -/
theorem convert_matches_spec_on_finite_witness :
    (pyFloat "abc" = none
      ∧ convert_to_correct_type cholla "abc" = .ok (convertSpec cholla "abc"))
    ∧ (pyFloat "2.5" = some (.finite (mkRat 5 2))
      ∧ convert_to_correct_type cholla "2.5" = .ok (convertSpec cholla "2.5")) :=
  ⟨⟨by decide, convert_matches_spec_on_finite cholla "abc" (Or.inl (by decide))⟩,
   ⟨by decide, convert_matches_spec_on_finite cholla "2.5"
      (Or.inr ⟨mkRat 5 2, by decide⟩)⟩⟩

/-! ### C2: sentinel decode/encode -/

/-- Counterexample to C2 as stated: the sentinel `"1"` decodes to the
integer `1`, not to a boolean, because numeric parsing precedes the
sentinel comparison. -/
theorem sentinel_decode_not_boolean :
    convert_to_correct_type cholla "1" = .ok (.int 1)
    ∧ convert_to_correct_type nautilus "1" = .ok (.int 1)
    ∧ (Except.ok (SimulationParameter.int 1) : Except PyErr SimulationParameter)
        ≠ .ok (.bool true) := by
  decide

/-- C2 (amended).  For both concrete variants (sentinels `"1"`/`"0"`):
decoding a sentinel string yields the corresponding integer, since the
numeric branch fires first; re-encoding the boolean values does yield
the sentinel strings `"1"` and `"0"` again. -/
theorem sentinel_decode_integer_encode_boolean :
    (convert_to_correct_type cholla "1" = .ok (.int 1)
      ∧ convert_to_correct_type cholla "0" = .ok (.int 0)
      ∧ convert_to_string cholla (.bool true) = .ok "1"
      ∧ convert_to_string cholla (.bool false) = .ok "0")
    ∧ (convert_to_correct_type nautilus "1" = .ok (.int 1)
      ∧ convert_to_correct_type nautilus "0" = .ok (.int 0)
      ∧ convert_to_string nautilus (.bool true) = .ok "1"
      ∧ convert_to_string nautilus (.bool false) = .ok "0") := by
  decide

/-! ### C10: the coercion is not total — `inf` raises OverflowError -/

/-- C10.  For every variant, the value strings `"inf"` and `"-inf"`
parse successfully as floats, yet coercion raises an uncaught
`OverflowError` (not a parse error) in the integer-truncation check, and
reading a file containing such a value propagates it. -/
theorem coercion_not_total_on_inf (v : Variant) :
    pyFloat "inf" = some .inf
    ∧ pyFloat "-inf" = some .neginf
    ∧ convert_to_correct_type v "inf" = .error .overflowError
    ∧ convert_to_correct_type v "-inf" = .error .overflowError
    ∧ ParameterFile.read v ["a=inf"] = .error .overflowError
    ∧ PyErr.overflowError ≠ PyErr.parseError := by
  have h1 : pyFloat "inf" = some .inf := by decide
  have h2 : pyFloat "-inf" = some .neginf := by decide
  have hc : convert_to_correct_type v "inf" = .error .overflowError := by
    simp [convert_to_correct_type, h1, pyIntOfFloat]
  have hc2 : convert_to_correct_type v "-inf" = .error .overflowError := by
    simp [convert_to_correct_type, h2, pyIntOfFloat]
  have hp : parseLines ["a=inf"] = .ok [("a", "inf")] := by decide
  refine ⟨h1, h2, hc, hc2, ?_, by decide⟩
  simp only [ParameterFile.read, hp, List.mapM, List.mapM.loop, hc, Except.map]
  rfl

/-! ### C3 groundwork: parsing back the decimal representation -/

/-- Character-class facts about the decimal digit characters. -/
lemma digitChar_facts {d : Nat} (hd : d < 10) :
    (Char.ofNat (48 + d)).toNat = 48 + d
    ∧ (Char.ofNat (48 + d)).isDigit = true
    ∧ (Char.ofNat (48 + d)).isWhitespace = false
    ∧ (Char.ofNat (48 + d)).toLower = Char.ofNat (48 + d)
    ∧ ((Char.ofNat (48 + d)) == 'e') = false
    ∧ ((Char.ofNat (48 + d)) == 'E') = false
    ∧ ((Char.ofNat (48 + d)) == '.') = false
    ∧ ((Char.ofNat (48 + d)) == '=') = false
    ∧ ((Char.ofNat (48 + d)) == ':') = false
    ∧ Char.ofNat (48 + d) ≠ '+'
    ∧ Char.ofNat (48 + d) ≠ '-'
    ∧ Char.ofNat (48 + d) ≠ '#'
    ∧ Char.ofNat (48 + d) ≠ ';'
    ∧ Char.ofNat (48 + d) ≠ '"'
    ∧ ((Char.ofNat (48 + d)) == '_') = false := by
  interval_cases d <;> decide

/-- Every character produced by `natDigitsRevFuel` is a decimal digit
character. -/
lemma mem_natDigitsRevFuel :
    ∀ (fuel n : Nat), ∀ c ∈ natDigitsRevFuel fuel n,
      ∃ d, d < 10 ∧ c = Char.ofNat (48 + d) := by
  intro fuel
  induction fuel with
  | zero => intro n c hc; simp [natDigitsRevFuel] at hc
  | succ fuel ih =>
    intro n c hc
    by_cases h : n = 0
    · simp [natDigitsRevFuel, h] at hc
    · rw [natDigitsRevFuel, if_neg h] at hc
      rcases List.mem_cons.mp hc with rfl | hc'
      · exact ⟨n % 10, Nat.mod_lt _ (by norm_num), rfl⟩
      · exact ih _ c hc'

/-- Folding the digit-accumulation step over the digit list of `n`
recovers `n` (with the prior accumulator shifted past it). -/
lemma natDigitsRevFuel_val :
    ∀ (fuel n a : Nat), n ≤ fuel →
      List.foldl (fun a c => a * 10 + (c.toNat - 48)) a (natDigitsRevFuel fuel n).reverse
        = a * 10 ^ (natDigitsRevFuel fuel n).length + n := by
  intro fuel
  induction fuel with
  | zero =>
    intro n a h
    have : n = 0 := Nat.le_zero.mp h
    simp [natDigitsRevFuel, this]
  | succ fuel ih =>
    intro n a h
    by_cases h0 : n = 0
    · simp [natDigitsRevFuel, h0]
    · have hdiv : n / 10 < n := Nat.div_lt_self (Nat.pos_of_ne_zero h0) (by norm_num)
      have hle : n / 10 ≤ fuel := by omega
      rw [natDigitsRevFuel, if_neg h0]
      rw [List.reverse_cons, List.foldl_append, ih (n / 10) a hle]
      have hmod : n % 10 < 10 := Nat.mod_lt _ (by norm_num)
      have hchar := (digitChar_facts hmod).1
      simp only [List.foldl_cons, List.foldl_nil, List.length_cons, hchar]
      have hsub : 48 + n % 10 - 48 = n % 10 := by omega
      rw [hsub, pow_succ]
      have hnm := Nat.div_add_mod n 10
      set b := a * 10 ^ (natDigitsRevFuel fuel (n / 10)).length with hb
      ring_nf
      omega

/-- For positive `n`, the digit list of `n` is non-empty. -/
lemma natDigitsRev_ne_nil {n : Nat} (h : n ≠ 0) : natDigitsRev n ≠ [] := by
  unfold natDigitsRev
  rcases Nat.exists_eq_succ_of_ne_zero h with ⟨m, rfl⟩
  rw [natDigitsRevFuel, if_neg h]
  simp

/-- `natOfDigits` inverts the digit representation of a positive `n`. -/
lemma natOfDigits_natDigitsRev {n : Nat} (h : n ≠ 0) :
    natOfDigits (natDigitsRev n).reverse = some n := by
  unfold natOfDigits
  have hne : (natDigitsRev n).reverse ≠ [] := by
    simpa using natDigitsRev_ne_nil h
  have hdig : ((natDigitsRev n).reverse.any fun c => !c.isDigit) = false := by
    rw [List.any_eq_false]
    intro c hc
    rcases mem_natDigitsRevFuel n n c (List.mem_reverse.mp hc) with ⟨d, hd, rfl⟩
    simp [(digitChar_facts hd).2.1]
  rw [if_neg]
  · have := natDigitsRevFuel_val n n 0 (le_refl n)
    simp only [Nat.zero_mul, Nat.zero_add] at this
    rw [show natDigitsRev n = natDigitsRevFuel n n from rfl, this]
  · simp [List.isEmpty_iff, hne, hdig]

/-- No character of the digit list of `n` satisfies a predicate that is
false on every digit character. -/
lemma natDigitsRev_pred_false {n : Nat} (p : Char → Bool)
    (hp : ∀ d, d < 10 → p (Char.ofNat (48 + d)) = false) :
    ∀ c ∈ (natDigitsRev n).reverse, p c = false := by
  intro c hc
  rcases mem_natDigitsRevFuel n n c (List.mem_reverse.mp hc) with ⟨d, hd, rfl⟩
  exact hp d hd

/-- A split on a predicate false everywhere returns the whole list. -/
lemma splitAtFirst_none (p : Char → Bool) :
    ∀ (cs : List Char), (∀ c ∈ cs, p c = false) → splitAtFirst p cs = (cs, none) := by
  intro cs
  induction cs with
  | nil => intro _; rfl
  | cons c t ih =>
    intro h
    rw [splitAtFirst, if_neg (by simp [h c (List.mem_cons_self c t)])]
    simp [ih (fun x hx => h x (List.mem_cons_of_mem c hx))]

/-- A split at the first delimiter of `xs ++ y :: ys` with `xs`
delimiter-free isolates `xs` and `ys`. -/
lemma splitAtFirst_append (p : Char → Bool) :
    ∀ (xs : List Char) (y : Char) (ys : List Char), (∀ c ∈ xs, p c = false) →
      p y = true → splitAtFirst p (xs ++ y :: ys) = (xs, some ys) := by
  intro xs
  induction xs with
  | nil => intro y ys _ hy; simp [splitAtFirst, hy]
  | cons c t ih =>
    intro y ys h hy
    rw [List.cons_append, splitAtFirst,
      if_neg (by simp [h c (List.mem_cons_self c t)])]
    simp [ih y ys (fun x hx => h x (List.mem_cons_of_mem c hx)) hy]

/-- `powNatFuel` computes the monoid power when given enough fuel. -/
lemma powNatFuel_eq : ∀ (fuel b e : Nat), e < 2 ^ fuel → powNatFuel fuel b e = b ^ e := by
  intro fuel
  induction fuel with
  | zero =>
    intro b e he
    have : e = 0 := by simpa using Nat.lt_one_iff.mp (by simpa using he)
    subst this
    rfl
  | succ f ih =>
    intro b e he
    unfold powNatFuel
    by_cases h0 : e = 0
    · subst h0; simp
    · rw [if_neg h0]
      have hh : e / 2 < 2 ^ f := by
        rw [Nat.div_lt_iff_lt_mul (by norm_num)]
        calc e < 2 ^ (f + 1) := he
        _ = 2 ^ f * 2 := by rw [Nat.pow_succ]
      rw [ih b (e / 2) hh]
      have hmod := Nat.div_add_mod e 2
      by_cases hp : e % 2 = 0
      · rw [if_pos hp]
        rw [← pow_add]
        congr 1
        omega
      · rw [if_neg hp]
        have hp1 : e % 2 = 1 := by omega
        rw [← pow_add, ← pow_succ]
        congr 1
        omega

/-- `powNat` is exponentiation. -/
lemma powNat_eq (b e : Nat) : powNat b e = b ^ e :=
  powNatFuel_eq e b e (Nat.lt_two_pow e)

/-- `log2Fuel` brackets its argument between consecutive powers of two. -/
lemma log2Fuel_spec : ∀ (fuel n : Nat), 0 < n → n < 2 ^ fuel →
    2 ^ log2Fuel fuel n ≤ n ∧ n < 2 ^ (log2Fuel fuel n + 1) := by
  intro fuel
  induction fuel with
  | zero => intro n h0 h1; omega
  | succ f ih =>
    intro n h0 h1
    unfold log2Fuel
    by_cases hn : n < 2
    · rw [if_pos hn]
      constructor
      · simpa using h0
      · simpa using hn
    · rw [if_neg hn]
      have hd0 : 0 < n / 2 := by omega
      have hdf : n / 2 < 2 ^ f := by
        rw [Nat.div_lt_iff_lt_mul (by norm_num)]
        calc n < 2 ^ (f + 1) := h1
        _ = 2 ^ f * 2 := by rw [Nat.pow_succ]
      obtain ⟨hl, hr⟩ := ih (n / 2) hd0 hdf
      constructor
      · rw [show 1 + log2Fuel f (n / 2) = log2Fuel f (n / 2) + 1 by omega, Nat.pow_succ]
        have := (Nat.le_div_iff_mul_le (by norm_num : 0 < 2)).mp hl
        omega
      · rw [show 1 + log2Fuel f (n / 2) + 1 = log2Fuel f (n / 2) + 1 + 1 by omega,
          Nat.pow_succ]
        have := (Nat.div_lt_iff_lt_mul (by norm_num : 0 < 2)).mp hr
        omega

/-- `log2Coarse` brackets its argument between consecutive powers of two. -/
lemma log2Coarse_spec : ∀ (fuel n : Nat), 0 < n → n < 2 ^ (64 * fuel + 64) →
    2 ^ log2Coarse fuel n ≤ n ∧ n < 2 ^ (log2Coarse fuel n + 1) := by
  intro fuel
  induction fuel with
  | zero =>
    intro n h0 _
    exact log2Fuel_spec n n h0 (Nat.lt_two_pow n)
  | succ f ih =>
    intro n h0 h1
    unfold log2Coarse
    by_cases hn : n < 2 ^ 64
    · rw [if_pos hn]
      exact log2Fuel_spec 64 n h0 hn
    · rw [if_neg hn]
      have hd0 : 0 < n / 2 ^ 64 := Nat.div_pos (not_lt.mp hn) (by norm_num)
      have hdf : n / 2 ^ 64 < 2 ^ (64 * f + 64) := by
        rw [Nat.div_lt_iff_lt_mul (by norm_num : 0 < 2 ^ 64)]
        calc n < 2 ^ (64 * (f + 1) + 64) := h1
        _ = 2 ^ (64 * f + 64) * 2 ^ 64 := by rw [← pow_add]; ring_nf
      obtain ⟨hl, hr⟩ := ih (n / 2 ^ 64) hd0 hdf
      constructor
      · have := (Nat.le_div_iff_mul_le (by norm_num : 0 < 2 ^ 64)).mp hl
        calc 2 ^ (64 + log2Coarse f (n / 2 ^ 64))
            = 2 ^ log2Coarse f (n / 2 ^ 64) * 2 ^ 64 := by rw [← pow_add]; ring_nf
        _ ≤ n := this
      · have := (Nat.div_lt_iff_lt_mul (by norm_num : 0 < 2 ^ 64)).mp hr
        calc n < 2 ^ (log2Coarse f (n / 2 ^ 64) + 1) * 2 ^ 64 := this
        _ = 2 ^ (64 + log2Coarse f (n / 2 ^ 64) + 1) := by rw [← pow_add]; ring_nf

/-- `log2Nat` is the floor of the base-2 logarithm. -/
lemma log2Nat_spec (n : Nat) (h : 0 < n) :
    2 ^ log2Nat n ≤ n ∧ n < 2 ^ (log2Nat n + 1) :=
  log2Coarse_spec n n h
    (lt_of_lt_of_le (Nat.lt_two_pow n) (Nat.pow_le_pow_right (by norm_num) (by omega)))

/-- `ratNegate` agrees with rational negation. -/
lemma ratNegate_eq_neg (q : ℚ) : ratNegate q = -q := by
  unfold ratNegate
  rw [Rat.mkRat_eq_div, Int.cast_neg, neg_div, Rat.num_div_den]

/-- `powTwoQ` is the integer power of two. -/
lemma powTwoQ_eq_zpow (k : Int) : powTwoQ k = (2 : ℚ) ^ k := by
  unfold powTwoQ
  by_cases h : 0 ≤ k
  · rw [if_pos h, Rat.mkRat_eq_div, powNat_eq]
    push_cast
    rw [div_one, ← zpow_natCast, Int.toNat_of_nonneg h]
  · rw [if_neg h, Rat.mkRat_eq_div, powNat_eq]
    push_cast
    rw [← zpow_natCast ((2 : ℚ)), Int.toNat_of_nonneg (by omega : (0 : Int) ≤ -k),
      one_div, ← zpow_neg, neg_neg]

/-- `ratScale2` multiplies by the integer power of two. -/
lemma ratScale2_eq (a : ℚ) (k : Int) : ratScale2 a k = a * (2 : ℚ) ^ k := by
  unfold ratScale2
  by_cases h : 0 ≤ k
  · rw [if_pos h, Rat.mkRat_eq_div, powNat_eq]
    push_cast
    rw [mul_div_right_comm, Rat.num_div_den, ← zpow_natCast, Int.toNat_of_nonneg h]
  · rw [if_neg h, Rat.mkRat_eq_div, powNat_eq]
    push_cast
    rw [← div_div, Rat.num_div_den, ← zpow_natCast ((2 : ℚ)),
      Int.toNat_of_nonneg (by omega : (0 : Int) ≤ -k), div_eq_mul_inv, ← zpow_neg, neg_neg]

/-- Half-even rounding fixes the integers. -/
lemma roundHalfEven_intCast (n : Int) : roundHalfEven ((n : ℚ)) = n := by
  unfold roundHalfEven
  rw [Int.floor_intCast]
  rw [if_pos]
  rw [Rat.mkRat_eq_div]
  rw [lt_div_iff₀ (by norm_num : (0 : ℚ) < ((2 : ℕ) : ℚ))]
  push_cast
  linarith

/-- `log2floorQ` brackets a positive rational between consecutive
integer powers of two. -/
lemma log2floorQ_spec (a : ℚ) (ha : 0 < a) :
    (2 : ℚ) ^ log2floorQ a ≤ a ∧ a < (2 : ℚ) ^ (log2floorQ a + 1) := by
  have hnum : 0 < a.num := Rat.num_pos.mpr ha
  have hnabs : 0 < a.num.natAbs := Int.natAbs_pos.mpr (by omega)
  have hden : 0 < a.den := a.pos
  obtain ⟨hn1, hn2⟩ := log2Nat_spec a.num.natAbs hnabs
  obtain ⟨hd1, hd2⟩ := log2Nat_spec a.den hden
  set Ln := log2Nat a.num.natAbs with hLn
  set Ld := log2Nat a.den with hLd
  have hdenQ : (0 : ℚ) < (a.den : ℚ) := by exact_mod_cast hden
  have hnumQ : ((a.num.natAbs : ℚ)) = (a.num : ℚ) := by
    rw [Int.cast_natAbs, abs_of_pos (by exact_mod_cast hnum)]
  have haeq : a = (a.num : ℚ) / (a.den : ℚ) := (Rat.num_div_den a).symm
  -- cast the Nat bounds into ℚ with zpow exponents
  have hn1Q : (2 : ℚ) ^ ((Ln : ℤ)) ≤ (a.num : ℚ) := by
    rw [zpow_natCast, ← hnumQ]
    exact_mod_cast hn1
  have hn2Q : (a.num : ℚ) < (2 : ℚ) ^ ((Ln : ℤ) + 1) := by
    rw [show ((Ln : ℤ) + 1) = ((Ln + 1 : ℕ) : ℤ) by push_cast; ring, zpow_natCast, ← hnumQ]
    exact_mod_cast hn2
  have hd1Q : (2 : ℚ) ^ ((Ld : ℤ)) ≤ (a.den : ℚ) := by
    rw [zpow_natCast]
    exact_mod_cast hd1
  have hd2Q : (a.den : ℚ) < (2 : ℚ) ^ ((Ld : ℤ) + 1) := by
    rw [show ((Ld : ℤ) + 1) = ((Ld + 1 : ℕ) : ℤ) by push_cast; ring, zpow_natCast]
    exact_mod_cast hd2
  have hupper : a < (2 : ℚ) ^ ((Ln : ℤ) - Ld + 1) := by
    rw [haeq, div_lt_iff₀ hdenQ]
    calc (a.num : ℚ) < (2 : ℚ) ^ ((Ln : ℤ) + 1) := hn2Q
    _ = (2 : ℚ) ^ ((Ln : ℤ) - Ld + 1) * (2 : ℚ) ^ ((Ld : ℤ)) := by
        rw [← zpow_add₀ (by norm_num : (2 : ℚ) ≠ 0)]; ring_nf
    _ ≤ (2 : ℚ) ^ ((Ln : ℤ) - Ld + 1) * (a.den : ℚ) := by
        have h2 : (0 : ℚ) < (2 : ℚ) ^ ((Ln : ℤ) - Ld + 1) := by positivity
        nlinarith
  have hlower : (2 : ℚ) ^ ((Ln : ℤ) - Ld - 1) < a := by
    rw [haeq, lt_div_iff₀ hdenQ]
    calc (2 : ℚ) ^ ((Ln : ℤ) - Ld - 1) * (a.den : ℚ)
        < (2 : ℚ) ^ ((Ln : ℤ) - Ld - 1) * (2 : ℚ) ^ ((Ld : ℤ) + 1) := by
          have h2 : (0 : ℚ) < (2 : ℚ) ^ ((Ln : ℤ) - Ld - 1) := by positivity
          nlinarith
    _ = (2 : ℚ) ^ ((Ln : ℤ)) := by
        rw [← zpow_add₀ (by norm_num : (2 : ℚ) ≠ 0)]; ring_nf
    _ ≤ (a.num : ℚ) := hn1Q
  unfold log2floorQ
  rw [← hLn, ← hLd]
  by_cases hb1 : powTwoQ ((Ln : ℤ) - Ld + 1) ≤ a
  · rw [powTwoQ_eq_zpow] at hb1
    exact absurd (lt_of_le_of_lt hb1 hupper)
      (by simp)
  · rw [if_neg hb1]
    by_cases hb2 : powTwoQ ((Ln : ℤ) - Ld) ≤ a
    · rw [if_pos hb2, powTwoQ_eq_zpow] at *
      exact ⟨hb2, not_le.mp hb1⟩
    · rw [if_neg hb2, powTwoQ_eq_zpow] at *
      refine ⟨le_of_lt ?_, by simpa using not_le.mp hb2⟩
      simpa using hlower

/-- The overflow threshold in closed form. -/
lemma binary64Overflow_eq :
    binary64Overflow = (2 : ℚ) ^ (1024 : ℕ) - (2 : ℚ) ^ (970 : ℕ) := by
  unfold binary64Overflow
  rw [Rat.mkRat_eq_div, powNat_eq, powNat_eq]
  rw [Nat.cast_sub (Nat.pow_le_pow_right (by norm_num) (by norm_num))]
  push_cast
  rw [div_one]

/-- Binary64 rounding fixes positive integers below `2 ^ 53` (they are
exactly representable, so rounding is the identity on them). -/
lemma roundFloatPos_intCast (n : Int) (h0 : 0 < n) (h53 : n.natAbs < 2 ^ 53) :
    roundFloatPos ((n : ℚ)) = .finite ((n : ℚ)) := by
  have ha : (0 : ℚ) < (n : ℚ) := by exact_mod_cast h0
  have h1n : (1 : ℚ) ≤ (n : ℚ) := by exact_mod_cast h0
  have hlt53 : (n : ℚ) < (2 : ℚ) ^ (53 : ℕ) := by
    have : (n : ℚ) = ((n.natAbs : ℕ) : ℚ) := by
      rw [Int.cast_natAbs, abs_of_pos h0]
    rw [this]
    exact_mod_cast h53
  obtain ⟨hE1, hE2⟩ := log2floorQ_spec ((n : ℚ)) ha
  set e := log2floorQ ((n : ℚ)) with he
  have he0 : 0 ≤ e := by
    by_contra hneg
    have h1 : e + 1 ≤ 0 := by omega
    have : (2 : ℚ) ^ (e + 1) ≤ (2 : ℚ) ^ (0 : ℤ) :=
      zpow_le_zpow_right₀ (by norm_num) h1
    rw [zpow_zero] at this
    linarith
  have he52 : e ≤ 52 := by
    by_contra hgt
    have h1 : (53 : ℤ) ≤ e := by omega
    have : (2 : ℚ) ^ (53 : ℤ) ≤ (2 : ℚ) ^ e :=
      zpow_le_zpow_right₀ (by norm_num) h1
    rw [show ((53 : ℤ)) = ((53 : ℕ) : ℤ) by norm_num, zpow_natCast] at this
    linarith
  have hov : ¬ binary64Overflow ≤ (n : ℚ) := by
    rw [binary64Overflow_eq]
    push_neg
    have h1 : (2 : ℚ) ^ (53 : ℕ) + (2 : ℚ) ^ (970 : ℕ) ≤ (2 : ℚ) ^ (1024 : ℕ) := by
      have ha' : (2 : ℚ) ^ (53 : ℕ) ≤ (2 : ℚ) ^ (970 : ℕ) :=
        pow_le_pow_right₀ (by norm_num) (by norm_num)
      have hb' : (2 : ℚ) ^ (970 : ℕ) + (2 : ℚ) ^ (970 : ℕ) = (2 : ℚ) ^ (971 : ℕ) := by
        rw [← two_mul, ← pow_succ']
      have hc' : (2 : ℚ) ^ (971 : ℕ) ≤ (2 : ℚ) ^ (1024 : ℕ) :=
        pow_le_pow_right₀ (by norm_num) (by norm_num)
      linarith
    linarith
  unfold roundFloatPos
  rw [if_neg hov, ← he, if_neg (by omega : ¬ e < -1022)]
  have hscale : ratScale2 ((n : ℚ)) (52 - e) = ((n * 2 ^ (52 - e).toNat : ℤ) : ℚ) := by
    rw [ratScale2_eq]
    push_cast
    rw [← zpow_natCast ((2 : ℚ)), Int.toNat_of_nonneg (by omega : (0 : ℤ) ≤ 52 - e)]
  rw [hscale, roundHalfEven_intCast, Rat.mkRat_eq_div, Nat.cast_one, div_one]
  rw [ratScale2_eq]
  push_cast
  rw [← zpow_natCast ((2 : ℚ)) ((52 - e).toNat),
    Int.toNat_of_nonneg (by omega : (0 : ℤ) ≤ 52 - e),
    mul_assoc, ← zpow_add₀ (by norm_num : (2 : ℚ) ≠ 0),
    show (52 - e) + (e - 52) = 0 by ring, zpow_zero, mul_one]

/-- Binary64 rounding fixes integers of magnitude below `2 ^ 53`. -/
lemma roundFloat_intCast (m : Int) (h53 : m.natAbs < 2 ^ 53) :
    roundFloat ((m : ℚ)) = .finite ((m : ℚ)) := by
  unfold roundFloat
  by_cases h0 : m = 0
  · subst h0
    norm_num
  · rw [if_neg (by exact_mod_cast h0 : ¬ ((m : ℚ)) = 0)]
    by_cases hneg : m < 0
    · rw [if_pos (by exact_mod_cast hneg : ((m : ℚ)) < 0)]
      rw [ratNegate_eq_neg, show (-(m : ℚ)) = (((-m : ℤ)) : ℚ) by push_cast; ring]
      rw [roundFloatPos_intCast (-m) (by omega) (by simpa using h53)]
      show PyFloat.finite (ratNegate (((-m : ℤ)) : ℚ)) = _
      rw [ratNegate_eq_neg]
      push_cast
      rw [neg_neg]
    · rw [if_neg (by exact_mod_cast hneg : ¬ ((m : ℚ)) < 0)]
      exact roundFloatPos_intCast m (by omega) h53

/-- Underscore validation succeeds on an underscore-free list. -/
lemma validUnderscores_of_none (prev : Option Char) :
    ∀ cs : List Char, (∀ c ∈ cs, (c == '_') = false) →
      validUnderscores prev cs = true := by
  intro cs
  induction cs generalizing prev with
  | nil => intro _; rfl
  | cons c t ih =>
    intro h
    unfold validUnderscores
    rw [if_neg]
    · exact ih (some c) (fun x hx => h x (List.mem_cons_of_mem c hx))
    · have := h c (List.mem_cons_self c t)
      simpa using this

/-- Underscore stripping is the identity on an underscore-free list. -/
lemma stripUnderscores_eq_self {cs : List Char}
    (h : ∀ c ∈ cs, (c == '_') = false) : stripUnderscores cs = some cs := by
  unfold stripUnderscores
  rw [if_pos (validUnderscores_of_none none cs h)]
  congr 1
  exact List.filter_eq_self.mpr (fun c hc => by simp [h c hc])

/-- The value of `scaledValue` with trivial scale and exponent. -/
lemma scaledValue_nat (n : Nat) : scaledValue n 0 0 = (n : ℚ) := by
  unfold scaledValue
  norm_num [powNat_eq]

/-- Parsing the decimal representation of a positive natural number. -/
lemma parseDecimal_natDigits {n : Nat} (h : n ≠ 0) :
    parseDecimal (natDigitsRev n).reverse = some ((n : ℚ)) := by
  have h1 := splitAtFirst_none (fun c => c == 'e' || c == 'E') (natDigitsRev n).reverse
    (natDigitsRev_pred_false _ (fun d hd => by
      simp [(digitChar_facts hd).2.2.2.2.1, (digitChar_facts hd).2.2.2.2.2.1]))
  have h2 := splitAtFirst_none (fun c => c == '.') (natDigitsRev n).reverse
    (natDigitsRev_pred_false _ (fun d hd => (digitChar_facts hd).2.2.2.2.2.2.1))
  unfold parseDecimal
  rw [h1]
  dsimp only
  unfold parseMantissa
  rw [h2]
  dsimp only
  rw [natOfDigits_natDigitsRev h]
  simp [scaledValue_nat]

/-- Parsing the decimal representation of any natural number (core,
unsigned form). -/
lemma pyFloatCore_natRepr (n : Nat) (h53 : n < 2 ^ 53) :
    pyFloatCore (natRepr n).data = some (.finite ((n : ℚ))) := by
  by_cases h : n = 0
  · subst h
    show pyFloatCore "0".data = some (.finite ((0 : Nat) : ℚ))
    rw [Nat.cast_zero]
    decide
  · unfold natRepr
    rw [if_neg h]
    unfold pyFloatCore
    rw [show (String.mk (natDigitsRev n).reverse).data = (natDigitsRev n).reverse from rfl]
    rw [parseDecimal_natDigits h]
    show some (roundFloat ((n : ℚ))) = some (.finite ((n : ℚ)))
    rw [show ((n : ℚ)) = (((n : ℤ)) : ℚ) by push_cast; rfl]
    rw [roundFloat_intCast ((n : ℤ)) (by simpa using h53)]

/-- The head of the digit representation is neither a sign character nor
empty, so `pyFloatList` passes straight to the unsigned core. -/
lemma pyFloatList_natRepr (n : Nat) (h53 : n < 2 ^ 53) :
    pyFloatList (natRepr n).data = some (.finite ((n : ℚ))) := by
  by_cases h : n = 0
  · subst h
    show pyFloatList "0".data = some (.finite ((0 : Nat) : ℚ))
    rw [Nat.cast_zero]
    decide
  · have hdata : (natRepr n).data = (natDigitsRev n).reverse := by
      unfold natRepr
      rw [if_neg h]
    rcases hl : (natDigitsRev n).reverse with _ | ⟨c, rest⟩
    · exact absurd (by simpa using hl) (natDigitsRev_ne_nil h)
    · have hc : c ∈ (natDigitsRev n).reverse := by rw [hl]; exact List.mem_cons_self _ _
      rcases mem_natDigitsRevFuel n n c (List.mem_reverse.mp hc) with ⟨d, hd, rfl⟩
      rw [hdata, hl, pyFloatList,
        if_neg ((digitChar_facts hd).2.2.2.2.2.2.2.2.2.1),
        if_neg ((digitChar_facts hd).2.2.2.2.2.2.2.2.2.2.1), ← hl, ← hdata]
      exact pyFloatCore_natRepr n h53

/-- Every character of `natRepr` is a digit character. -/
lemma natRepr_chars (n : Nat) :
    ∀ c ∈ (natRepr n).data, ∃ d, d < 10 ∧ c = Char.ofNat (48 + d) := by
  unfold natRepr
  by_cases h : n = 0
  · rw [if_pos h]
    intro c hc
    have hcc : c = '0' := by simpa using hc
    exact ⟨0, by norm_num, hcc.trans (by decide)⟩
  · rw [if_neg h]
    intro c hc
    exact mem_natDigitsRevFuel n n c (List.mem_reverse.mp (by simpa using hc))

/-- No character of `intRepr` is whitespace. -/
lemma intRepr_not_ws (m : Int) :
    ∀ c ∈ (intRepr m).data, c.isWhitespace = false := by
  unfold intRepr
  by_cases h : m < 0
  · rw [if_pos h]
    intro c hc
    rw [String.data_append] at hc
    rcases List.mem_append.mp hc with hc' | hc'
    · have hcc : c = '-' := by simpa using hc'
      rw [hcc]; decide
    · rcases natRepr_chars _ c hc' with ⟨d, hd, rfl⟩
      exact (digitChar_facts hd).2.2.1
  · rw [if_neg h]
    intro c hc
    rcases natRepr_chars _ c hc with ⟨d, hd, rfl⟩
    exact (digitChar_facts hd).2.2.1

/-- A list with no whitespace anywhere has none at its edges. -/
lemma noEdgeWs_of_all {cs : List Char}
    (h : ∀ c ∈ cs, c.isWhitespace = false) : noEdgeWs cs = true := by
  cases cs with
  | nil => rfl
  | cons c t =>
    have h1 : c.isWhitespace = false := h c (List.mem_cons_self c t)
    have h2 := List.getLast?_eq_getLast (c :: t) (by simp)
    have h3 : ((c :: t).getLast (by simp)).isWhitespace = false :=
      h _ (List.getLast_mem _)
    unfold noEdgeWs
    rw [List.head?_cons, h2]
    simp [h1, h3]

/-- Dropping while a predicate holds is the identity when the head
fails it. -/
lemma dropWhile_eq_self_of_head {p : Char → Bool} {cs : List Char}
    (h : ∀ c, cs.head? = some c → p c = false) :
    cs.dropWhile p = cs := by
  cases cs with
  | nil => rfl
  | cons c t => simp [List.dropWhile_cons, h c rfl]

/-- Stripping is the identity on a whitespace-free-edged list. -/
lemma stripList_eq_self {cs : List Char} (h : noEdgeWs cs = true) :
    stripList cs = cs := by
  unfold noEdgeWs at h
  rw [Bool.and_eq_true] at h
  obtain ⟨ha, hb⟩ := h
  have h1 : cs.dropWhile Char.isWhitespace = cs :=
    dropWhile_eq_self_of_head (fun c hc => by rw [hc] at ha; simpa using ha)
  have h2 : cs.reverse.dropWhile Char.isWhitespace = cs.reverse :=
    dropWhile_eq_self_of_head (fun c hc => by
      rw [List.head?_reverse] at hc
      rw [hc] at hb
      simpa using hb)
  unfold stripList
  rw [h1, h2, List.reverse_reverse]

/-- No character of `intRepr` is an underscore. -/
lemma intRepr_no_underscore (m : Int) :
    ∀ c ∈ (intRepr m).data, (c == '_') = false := by
  unfold intRepr
  by_cases h : m < 0
  · rw [if_pos h]
    intro c hc
    rw [String.data_append] at hc
    rcases List.mem_append.mp hc with hc' | hc'
    · have hcc : c = '-' := by simpa using hc'
      rw [hcc]; decide
    · rcases natRepr_chars _ c hc' with ⟨d, hd, rfl⟩
      exact (digitChar_facts hd).2.2.2.2.2.2.2.2.2.2.2.2.2.2
  · rw [if_neg h]
    intro c hc
    rcases natRepr_chars _ c hc with ⟨d, hd, rfl⟩
    exact (digitChar_facts hd).2.2.2.2.2.2.2.2.2.2.2.2.2.2

/-- Parsing the decimal representation of any integer whose magnitude is
exactly representable (below `2 ^ 53`, where rounding is the identity). -/
lemma pyFloat_intRepr (m : Int) (h53 : m.natAbs < 2 ^ 53) :
    pyFloat (intRepr m) = some (.finite ((m : ℚ))) := by
  unfold pyFloat
  rw [stripList_eq_self (noEdgeWs_of_all (intRepr_not_ws m)),
    stripUnderscores_eq_self (intRepr_no_underscore m)]
  show pyFloatList (intRepr m).data = some (.finite ((m : ℚ)))
  unfold intRepr
  by_cases h : m < 0
  · rw [if_pos h, String.data_append,
      show ("-" : String).data = ['-'] from rfl, List.cons_append, List.nil_append]
    simp only [pyFloatList, if_neg (show ¬('-' : Char) = '+' by decide), if_pos rfl]
    rw [pyFloatCore_natRepr m.natAbs h53]
    show some (PyFloat.finite (ratNegate ((m.natAbs : Nat) : ℚ)))
      = some (.finite ((m : ℚ)))
    rw [ratNegate_eq_neg, Int.cast_natAbs, abs_of_neg h, Int.cast_neg, neg_neg]
  · rw [if_neg h, pyFloatList_natRepr m.natAbs h53]
    rw [Int.cast_natAbs, abs_of_nonneg (not_lt.mp h)]

/-- Truncation of an integer cast returns the integer. -/
lemma ratTrunc_intCast (m : Int) : ratTrunc ((m : ℚ)) = m := by
  unfold ratTrunc
  by_cases h : (0 : ℚ) ≤ (m : ℚ)
  · rw [if_pos h, Int.floor_intCast]
  · rw [if_neg h, Int.ceil_intCast]

/-- Decoding inverts the integer encoding, for every variant. -/
lemma convert_intRepr (v : Variant) (m : Int) (h53 : m.natAbs < 2 ^ 53) :
    convert_to_correct_type v (intRepr m) = .ok (.int m) := by
  unfold convert_to_correct_type
  rw [pyFloat_intRepr m h53]
  simp [pyIntOfFloat, pyFloatEqInt, ratTrunc_intCast]

/-- The unpacked content of `goodKey`. -/
lemma goodKey_spec {k : String} (h : goodKey k = true) :
    k.data ≠ []
    ∧ (∀ c ∈ k.data, c.isWhitespace = false ∧ (c == '=') = false
        ∧ (c == ':') = false ∧ c.toLower = c)
    ∧ (∀ c, k.data.head? = some c →
        (c == '#') = false ∧ (c == ';') = false) := by
  unfold goodKey at h
  simp only [Bool.and_eq_true, List.all_eq_true, Bool.not_eq_true'] at h
  obtain ⟨⟨⟨⟨hne, hall⟩, hh1⟩, hh2⟩, _⟩ := h
  refine ⟨by simpa using hne, fun c hc => ?_, fun c hc => ?_⟩
  · have := hall c hc
    simp only [Bool.and_eq_true, Bool.not_eq_true'] at this
    exact ⟨this.1.1.1, this.1.1.2, this.1.2, by simpa using this.2⟩
  · rw [hc] at hh1 hh2
    constructor
    · simpa using hh1
    · simpa using hh2

/-- The key side survives stripping and lower-casing. -/
lemma key_strip_lower {k : String} (h : goodKey k = true) :
    lowerStr ⟨stripList k.data⟩ = k := by
  rcases goodKey_spec h with ⟨_, hall, _⟩
  rw [stripList_eq_self (noEdgeWs_of_all (fun c hc => (hall c hc).1))]
  show lowerStr ⟨k.data⟩ = k
  unfold lowerStr
  rw [show (⟨k.data⟩ : String).data = k.data from rfl]
  rw [List.map_congr_left (fun c hc => (hall c hc).2.2.2), List.map_id']

/-- The character list of an encoded `key=value` line. -/
lemma line_data (k s : String) :
    (k ++ "=" ++ s).data = k.data ++ '=' :: s.data := by
  rw [String.data_append, String.data_append]
  simp [List.append_assoc]

/-- An encoded line has no whitespace at its ends. -/
lemma line_noEdgeWs {k s : String} (hk : goodKey k = true)
    (hs : noEdgeWs s.data = true) :
    noEdgeWs (k.data ++ '=' :: s.data) = true := by
  rcases goodKey_spec hk with ⟨hne, hall, _⟩
  unfold noEdgeWs
  rw [Bool.and_eq_true]
  constructor
  · rcases hd : k.data with _ | ⟨c, t⟩
    · exact absurd hd hne
    · rw [List.cons_append, List.head?_cons]
      have hcw := (hall c (by rw [hd]; exact List.mem_cons_self c t)).1
      simpa using hcw
  · rcases hs' : s.data with _ | ⟨c, t⟩
    · rw [show k.data ++ '=' :: ([] : List Char) = k.data ++ ['='] from rfl,
        List.getLast?_concat]
      decide

    · rw [List.getLast?_append, List.getLast?_cons_cons]
      unfold noEdgeWs at hs
      rw [hs', Bool.and_eq_true] at hs
      obtain ⟨_, hb⟩ := hs
      have hL := List.getLast?_eq_getLast (c :: t) (by simp)
      rw [hL] at hb ⊢
      rw [show (some ((c :: t).getLast (by simp))).or k.data.getLast?
          = some ((c :: t).getLast (by simp)) from rfl]
      exact hb

/-- Parsing back an encoded `key=value` line recovers the pair. -/
lemma parseLine_encoded {k s : String} (hk : goodKey k = true)
    (hs : noEdgeWs s.data = true) :
    parseLine (k ++ "=" ++ s) = .ok (some (k, s)) := by
  rcases goodKey_spec hk with ⟨hne, hall, hhead⟩
  unfold parseLine
  rw [line_data, stripList_eq_self (line_noEdgeWs hk hs)]
  rcases hd : k.data with _ | ⟨c, t⟩
  · exact absurd hd hne
  · rw [List.cons_append]
    simp only [parseLineCore]
    have hc := hhead c (by rw [hd]; rfl)
    have hc1 : ¬c = '#' := ne_of_beq_false hc.1
    have hc2 : ¬c = ';' := ne_of_beq_false hc.2
    rw [if_neg (by simp [hc1, hc2])]
    rw [← List.cons_append, ← hd]
    rw [splitAtFirst_append _ k.data '=' s.data
      (fun x hx => by simp [(hall x hx).2.1, (hall x hx).2.2.1]) (by decide)]
    simp only [mkKV]
    rw [key_strip_lower hk, stripList_eq_self hs]

/-- `encodeParam` unfolding under a successful serialization. -/
lemma encodeParam_eq {v : Variant} {val : SimulationParameter} {s : String}
    (h : convert_to_string v val = .ok s) : encodeParam v val = s := by
  unfold encodeParam
  rw [h]

/-- Serialization succeeds on every good value, yielding `encodeParam`. -/
lemma convert_to_string_good (v : Variant) (val : SimulationParameter)
    (h : goodVal v val = true) :
    convert_to_string v val = .ok (encodeParam v val) := by
  cases val with
  | bool b => cases b <;> rfl
  | int n => rfl
  | float f =>
    cases f with
    | finite q => rfl
    | inf => exact absurd h (by simp [goodVal])
    | neginf => exact absurd h (by simp [goodVal])
    | nan => exact absurd h (by simp [goodVal])
  | str s => rfl

/-- The encoded form of an integer value. -/
lemma encodeParam_int (v : Variant) (n : Int) :
    encodeParam v (.int n) = intRepr n :=
  encodeParam_eq rfl

/-- The encoded form of an integer-valued float collapses to the bare
integer. -/
lemma encodeParam_float {v : Variant} {q : ℚ} (h : (ratTrunc q : ℚ) = q) :
    encodeParam v (.float (.finite q)) = intRepr (ratTrunc q) := by
  apply encodeParam_eq
  simp only [convert_to_string]
  rw [if_pos h]

/-- The encoded form of a string value under a quote-free variant. -/
lemma encodeParam_str {v : Variant} {s : String}
    (hq : v.quotes_around_string = false) : encodeParam v (.str s) = s := by
  apply encodeParam_eq
  simp only [convert_to_string, hq]
  simp

/-- Decoding the encoded form of a good value yields its collapse. -/
lemma convert_encodeParam {val : SimulationParameter}
    (h : goodVal cholla val = true) :
    convert_to_correct_type cholla (encodeParam cholla val)
      = .ok (collapseParam val) := by
  cases val with
  | bool b => cases b <;> decide
  | int n =>
    rw [encodeParam_int]
    exact convert_intRepr cholla n (by simpa [goodVal] using h)
  | float f =>
    cases f with
    | finite q =>
      obtain ⟨hq, h53⟩ : (ratTrunc q : ℚ) = q ∧ (ratTrunc q).natAbs < 2 ^ 53 := by
        simpa [goodVal] using h
      rw [encodeParam_float hq]
      exact convert_intRepr cholla (ratTrunc q) h53
    | inf => exact absurd h (by simp [goodVal])
    | neginf => exact absurd h (by simp [goodVal])
    | nan => exact absurd h (by simp [goodVal])
  | str s =>
    simp only [goodVal, Bool.and_eq_true, decide_eq_true_eq,
      Bool.not_eq_true'] at h
    obtain ⟨⟨⟨⟨⟨hfl, ht⟩, hf⟩, hq⟩, _⟩, _⟩ := h
    rw [encodeParam_str rfl]
    unfold convert_to_correct_type
    rw [hfl]
    show Except.ok (convertFallback cholla s) = .ok (collapseParam (.str s))
    unfold convertFallback
    rw [if_neg ht, if_neg hf, if_neg (by simp [hq])]
    rfl

/-- Encoded good values have no whitespace at their ends. -/
lemma encode_noEdgeWs {val : SimulationParameter}
    (h : goodVal cholla val = true) :
    noEdgeWs (encodeParam cholla val).data = true := by
  cases val with
  | bool b => cases b <;> decide
  | int n =>
    rw [encodeParam_int]
    exact noEdgeWs_of_all (intRepr_not_ws n)
  | float f =>
    cases f with
    | finite q =>
      obtain ⟨hq, -⟩ : (ratTrunc q : ℚ) = q ∧ (ratTrunc q).natAbs < 2 ^ 53 := by
        simpa [goodVal] using h
      rw [encodeParam_float hq]
      exact noEdgeWs_of_all (intRepr_not_ws _)
    | inf => exact absurd h (by simp [goodVal])
    | neginf => exact absurd h (by simp [goodVal])
    | nan => exact absurd h (by simp [goodVal])
  | str s =>
    simp only [goodVal, Bool.and_eq_true, decide_eq_true_eq,
      Bool.not_eq_true'] at h
    rw [encodeParam_str rfl]
    exact h.1.2

/-- Bind of a successful `Except` computation. -/
lemma except_bind_ok {α β : Type} (a : α) (f : α → Except PyErr β) :
    (Except.ok a >>= f) = f a := rfl

/-- Bind of a failed `Except` computation. -/
lemma except_bind_error {α β : Type} (e : PyErr) (f : α → Except PyErr β) :
    ((Except.error e : Except PyErr α) >>= f) = .error e := rfl

/-- `pure` in the `Except` monad. -/
lemma except_pure {α : Type} (a : α) : (pure a : Except PyErr α) = .ok a := rfl

/-- `mapM` collapses to `map` when every element succeeds. -/
lemma mapM_ok_of_forall {α β : Type} (f : α → Except PyErr β) (g : α → β) :
    ∀ l : List α, (∀ x ∈ l, f x = .ok (g x)) → l.mapM f = .ok (l.map g) := by
  intro l
  induction l with
  | nil => intro _; rfl
  | cons x t ih =>
    intro h
    simp only [List.mapM_cons, h x (List.mem_cons_self x t),
      ih (fun y hy => h y (List.mem_cons_of_mem x hy)), except_bind_ok,
      except_pure, List.map_cons]

/-- A successful `mapM` preserves the length. -/
lemma mapM_ok_length {α β : Type} (f : α → Except PyErr β) :
    ∀ (l : List α) (ys : List β), l.mapM f = .ok ys → ys.length = l.length := by
  intro l
  induction l with
  | nil =>
    intro ys h
    rw [List.mapM_nil, except_pure] at h
    cases h
    rfl
  | cons x t ih =>
    intro ys h
    rw [List.mapM_cons] at h
    rcases hx : f x with e | b
    · simp only [hx, except_bind_error] at h
      cases h
    · simp only [hx, except_bind_ok] at h
      rcases ht : t.mapM f with e | bs
      · simp only [ht, except_bind_error] at h
        cases h
      · simp only [ht, except_bind_ok, except_pure] at h
        injection h with h2
        rw [← h2]
        simp [ih bs ht]

/-- The line-level pass inverts the encoding of a well-formed mapping,
accumulating onto any prefix with disjoint keys. -/
lemma parseLinesAux_encoded (v : Variant) :
    ∀ (params : List (String × SimulationParameter))
      (acc : List (String × String)),
      (∀ kv ∈ params, goodKey kv.1 = true) →
      (∀ kv ∈ params, noEdgeWs (encodeParam v kv.2).data = true) →
      (acc.map Prod.fst ++ params.map Prod.fst).Nodup →
      parseLinesAux acc (params.map (fun kv => kv.1 ++ "=" ++ encodeParam v kv.2))
        = .ok (acc ++ params.map (fun kv => (kv.1, encodeParam v kv.2))) := by
  intro params
  induction params with
  | nil =>
    intro acc _ _ _
    simp [parseLinesAux]
  | cons kv rest ih =>
    intro acc hk hv hnd
    obtain ⟨k, val⟩ := kv
    rw [List.map_cons]
    simp only [parseLinesAux]
    rw [parseLine_encoded (hk _ (List.mem_cons_self _ _))
      (hv _ (List.mem_cons_self _ _))]
    show (if acc.any (fun x => x.1 = k) then Except.error PyErr.parseError
        else parseLinesAux (acc ++ [(k, encodeParam v val)])
          (rest.map (fun kv => kv.1 ++ "=" ++ encodeParam v kv.2)))
      = Except.ok (acc ++ (k, encodeParam v val)
          :: rest.map (fun kv => (kv.1, encodeParam v kv.2)))
    have hnd' := hnd
    rw [List.map_cons, List.nodup_append] at hnd'
    obtain ⟨hndacc, hndrest, hdisj⟩ := hnd'
    have hkacc : acc.any (fun x => x.1 = k) = false := by
      rw [List.any_eq_false]
      intro x hx
      simp only [decide_eq_true_eq]
      intro hxk
      exact hdisj (List.mem_map_of_mem Prod.fst hx)
        (by rw [hxk]; exact List.mem_cons_self _ _)
    rw [if_neg (by simp [hkacc])]
    rw [ih (acc ++ [(k, encodeParam v val)])
      (fun x hx => hk x (List.mem_cons_of_mem _ hx))
      (fun x hx => hv x (List.mem_cons_of_mem _ hx))
      (by
        rw [List.map_append, List.append_assoc]
        simpa using hnd)]
    simp [List.append_assoc]

/-- Map of a successful `Except` computation. -/
lemma except_map_ok {α β : Type} (a : α) (f : α → β) :
    (Except.ok a : Except PyErr α).map f = .ok (f a) := rfl

/-- Coercing the encoded pair list back recovers the collapsed typed
mapping. -/
lemma read_encoded_pairs :
    ∀ ps : List (String × SimulationParameter),
      (∀ kv ∈ ps, goodVal cholla kv.2 = true) →
      (ps.map (fun kv => (kv.1, encodeParam cholla kv.2))).mapM
          (fun kv => (convert_to_correct_type cholla kv.2).map (fun p => (kv.1, p)))
        = .ok (ps.map (fun kv => (kv.1, collapseParam kv.2))) := by
  intro ps
  induction ps with
  | nil => intro _; rfl
  | cons kv rest ih =>
    intro h
    simp only [List.map_cons, List.mapM_cons]
    rw [show (convert_to_correct_type cholla
        ((kv.1, encodeParam cholla kv.2).2)).map
          (fun p => ((kv.1, encodeParam cholla kv.2).1, p))
      = (convert_to_correct_type cholla (encodeParam cholla kv.2)).map
          (fun p => (kv.1, p)) from rfl]
    rw [convert_encodeParam (h kv (List.mem_cons_self kv rest)), except_map_ok]
    simp only [except_bind_ok,
      ih (fun x hx => h x (List.mem_cons_of_mem kv hx)), except_pure]

/-! ### C3: the write/read round trip -/

/-- Counterexample to C3 as stated: a boolean value does not survive
the round trip — `True` is written as the sentinel `"1"` and read back
as the integer `1`, not as a boolean. -/
theorem roundtrip_not_identity_on_booleans :
    ParameterFile.write cholla [("restart", .bool true)] = .ok ["restart=1"]
    ∧ ParameterFile.read cholla ["restart=1"] = .ok [("restart", .int 1)]
    ∧ SimulationParameter.int 1 ≠ .bool true := by
  decide

/-- C3 (amended).  For every mapping with well-formed keys (non-empty,
lower-case, delimiter- and whitespace-free, pairwise distinct) and good
values — booleans, integers, integer-valued floats, and strings that are
not re-coerced on read — writing and re-reading reproduces the typed
mapping up to `collapseParam`: booleans collapse to the integers of
their numeric sentinels, and integer-valued floats (such as `2.0`) are
serialized as bare integers and collapse to integers; integer and
string values are reproduced exactly. -/
theorem write_read_roundtrip (params : List (String × SimulationParameter))
    (hkeys : ∀ kv ∈ params, goodKey kv.1 = true)
    (hnodup : (params.map Prod.fst).Nodup)
    (hvals : ∀ kv ∈ params, goodVal cholla kv.2 = true) :
    ∃ lines, ParameterFile.write cholla params = .ok lines
      ∧ ParameterFile.read cholla lines
          = .ok (params.map (fun kv => (kv.1, collapseParam kv.2))) := by
  refine ⟨params.map (fun kv => kv.1 ++ "=" ++ encodeParam cholla kv.2), ?_, ?_⟩
  · unfold ParameterFile.write
    exact mapM_ok_of_forall
      (fun kv : String × SimulationParameter =>
        (convert_to_string cholla kv.2).map (fun s => kv.1 ++ "=" ++ s))
      (fun kv : String × SimulationParameter =>
        kv.1 ++ "=" ++ encodeParam cholla kv.2) params
      (fun kv hkv => by
        beta_reduce
        rw [convert_to_string_good cholla kv.2 (hvals kv hkv)]
        rfl)
  · unfold ParameterFile.read parseLines
    rw [parseLinesAux_encoded cholla params [] hkeys
      (fun kv hkv => encode_noEdgeWs (hvals kv hkv)) (by simpa using hnodup)]
    simp only [List.nil_append, except_bind_ok]
    exact read_encoded_pairs params hvals

/-- Concrete instantiation of `write_read_roundtrip` on all four value
kinds, showing the `2.0 ⇒ 2` collapse. -/
theorem write_read_roundtrip_witness :
    ParameterFile.write cholla
        [("steps", .int 10), ("restart", .bool false), ("name", .str "run1"),
         ("dt", .float (.finite 2))]
      = .ok ["steps=10", "restart=0", "name=run1", "dt=2"]
    ∧ ParameterFile.read cholla ["steps=10", "restart=0", "name=run1", "dt=2"]
      = .ok [("steps", .int 10), ("restart", .int 0), ("name", .str "run1"),
             ("dt", .int 2)] := by
  obtain ⟨lines, h1, h2⟩ := write_read_roundtrip
    [("steps", .int 10), ("restart", .bool false), ("name", .str "run1"),
     ("dt", .float (.finite 2))] (by decide) (by decide) (by decide)
  have hw : ParameterFile.write cholla
      [("steps", .int 10), ("restart", .bool false), ("name", .str "run1"),
       ("dt", .float (.finite 2))]
      = .ok ["steps=10", "restart=0", "name=run1", "dt=2"] := by decide
  have hl : lines = ["steps=10", "restart=0", "name=run1", "dt=2"] := by
    have := h1.symm.trans hw
    injection this
  refine ⟨hw, ?_⟩
  rw [← hl, h2]
  decide

/-! ### C8: grid discovery counts and the empty-grid assertion -/

mutual

/-- The recursive walk finds every matching folder of a tree: filtered
descendants plus the root itself count `countSimFolders`. -/
theorem rglob_filter_count : ∀ d : Dir,
    ((rglobDirs d).filter Dir.isSimFolder).length
      + (if Dir.isSimFolder d then 1 else 0) = countSimFolders d
  | .mk files subs => by
    simp only [rglobDirs, countSimFolders]
    rw [rglob_subs_count subs]
    exact Nat.add_comm _ _

/-- List form of `rglob_filter_count` over the named subdirectories. -/
theorem rglob_subs_count : ∀ subs : List (String × Dir),
    ((rglobSubdirs subs).filter Dir.isSimFolder).length = countSimFoldersList subs
  | [] => by simp [rglobSubdirs, countSimFoldersList]
  | (n, d) :: rest => by
    simp only [rglobSubdirs, countSimFoldersList]
    rw [List.filter_append, List.length_append, rglob_subs_count rest]
    have h := rglob_filter_count d
    cases hd : Dir.isSimFolder d
    · rw [List.filter_cons_of_neg (by simp [hd])]
      rw [hd] at h
      simp only [Bool.false_eq_true, if_false, Nat.add_zero] at h
      omega
    · rw [List.filter_cons_of_pos (by simp [hd])]
      rw [hd] at h
      simp only [if_true, List.length_cons] at h ⊢
      omega

end

/-- Discovery over one root finds exactly the matching folders. -/
lemma simPathsOne_length (d : Dir) :
    (simPathsOne d).length = countSimFolders d := by
  unfold simPathsOne
  rw [List.length_append]
  have h := rglob_filter_count d
  cases hd : d.isSimFolder
  · rw [hd] at h
    simp only [Bool.false_eq_true, if_false, Nat.add_zero] at h
    simp [h]
  · rw [hd] at h
    simp only [if_true] at h
    simp
    omega

/-- Discovery over the search roots finds exactly the matching
folders. -/
lemma sim_paths_length (roots : List Dir) :
    (sim_paths roots).length = (roots.map countSimFolders).sum := by
  unfold sim_paths
  induction roots with
  | nil => rfl
  | cons d rest ih =>
    rw [List.flatMap_cons, List.length_append, simPathsOne_length, ih,
      List.map_cons, List.sum_cons]

/-- `mapM` succeeds outright when every element succeeds. -/
lemma mapM_ok_of_isOk {α β : Type} (f : α → Except PyErr β) :
    ∀ l : List α, (∀ x ∈ l, (f x).isOk = true) → ∃ ys, l.mapM f = .ok ys := by
  intro l
  induction l with
  | nil => exact fun _ => ⟨[], rfl⟩
  | cons x t ih =>
    intro h
    obtain ⟨ys, hys⟩ := ih (fun y hy => h y (List.mem_cons_of_mem x hy))
    rcases hx : f x with e | b
    · have hmem := h x (List.mem_cons_self x t)
      rw [hx] at hmem
      simp [Except.isOk, Except.toBool] at hmem
    · exact ⟨b :: ys, by
        simp only [List.mapM_cons, hx, hys, except_bind_ok, except_pure]⟩

/-- Counterexample to C8 as stated: one matching folder whose parameter
file holds `a=inf` makes grid construction raise the coercion's
`OverflowError` instead of yielding a one-simulation grid. -/
theorem grid_construction_raises_on_bad_parameter_file :
    countSimFolders (Dir.mk [("input.txt", ["a=inf"])] []) = 1
    ∧ SimulationGrid.init [Dir.mk [("input.txt", ["a=inf"])] []]
        = .error .overflowError := by
  decide

/-- C8 (amended).  Folder discovery finds exactly the matching folders,
at any nesting depth; with zero matching folders grid construction
fails with the empty-grid assertion; any successful construction holds
exactly one simulation per matching folder; and whenever every
discovered folder's `Simulation` construction succeeds (its parameter
file reads without error) and at least one folder matched, construction
does succeed, with exactly one simulation per matching folder.  A
matching folder whose parameter file fails to read makes construction
propagate that error instead. -/
theorem grid_discovery_counts (roots : List Dir) :
    (sim_paths roots).length = (roots.map countSimFolders).sum
    ∧ ((roots.map countSimFolders).sum = 0 →
        SimulationGrid.init roots = .error .assertionError)
    ∧ (∀ sims, SimulationGrid.init roots = .ok sims →
        sims.length = (roots.map countSimFolders).sum ∧ 0 < sims.length)
    ∧ ((∀ d ∈ sim_paths roots, (nautilusSimInit d).isOk = true) →
        0 < (roots.map countSimFolders).sum →
        ∃ sims, SimulationGrid.init roots = .ok sims
          ∧ sims.length = (roots.map countSimFolders).sum) := by
  refine ⟨sim_paths_length roots, ?_, ?_, ?_⟩
  · intro h0
    have hempty : sim_paths roots = [] := by
      have hlen := sim_paths_length roots
      rw [h0] at hlen
      exact List.length_eq_zero.mp hlen
    unfold SimulationGrid.init
    rw [hempty]
    rfl
  · intro sims hs
    unfold SimulationGrid.init at hs
    rcases hm : (sim_paths roots).mapM nautilusSimInit with e | ys
    · rw [hm, except_bind_error] at hs
      cases hs
    · rw [hm] at hs
      simp only [except_bind_ok] at hs
      by_cases hl : ys.length > 0
      · rw [if_pos hl, except_pure] at hs
        injection hs with hys
        rw [← hys]
        rw [mapM_ok_length nautilusSimInit (sim_paths roots) ys hm,
          sim_paths_length roots]
        constructor
        · rfl
        · rw [← sim_paths_length roots,
            ← mapM_ok_length nautilusSimInit (sim_paths roots) ys hm]
          exact hl
      · rw [if_neg hl] at hs
        cases hs
  · intro hall hpos
    obtain ⟨ys, hys⟩ := mapM_ok_of_isOk nautilusSimInit (sim_paths roots) hall
    have hlen : ys.length = (roots.map countSimFolders).sum :=
      (mapM_ok_length nautilusSimInit (sim_paths roots) ys hys).trans
        (sim_paths_length roots)
    refine ⟨ys, ?_, hlen⟩
    unfold SimulationGrid.init
    rw [hys, except_bind_ok, if_pos (by omega), except_pure]

/-- Concrete instantiation of `grid_discovery_counts`: three matching
folders at depths 0, 1 and 2 (plus one non-matching folder) yield a
three-simulation grid, and the success direction applies to them. -/
theorem grid_discovery_counts_witness :
    SimulationGrid.init
        [Dir.mk [("input.txt", ["a=1"])]
          [("s1", Dir.mk [("input.txt", ["b=2"])]
            [("s2", Dir.mk [("input.txt", ["c=x"])] [])]),
           ("s3", Dir.mk [] [])]]
      = .ok [⟨[("a", .int 1)]⟩, ⟨[("b", .int 2)]⟩, ⟨[("c", .str "x")]⟩]
    ∧ ([⟨[("a", .int 1)]⟩, ⟨[("b", .int 2)]⟩,
        ⟨[("c", .str "x")]⟩] : List Simulation).length
      = (([Dir.mk [("input.txt", ["a=1"])]
          [("s1", Dir.mk [("input.txt", ["b=2"])]
            [("s2", Dir.mk [("input.txt", ["c=x"])] [])]),
           ("s3", Dir.mk [] [])]]).map countSimFolders).sum
    ∧ 0 < ([⟨[("a", .int 1)]⟩, ⟨[("b", .int 2)]⟩,
        ⟨[("c", .str "x")]⟩] : List Simulation).length
    ∧ ∃ sims,
        SimulationGrid.init
            [Dir.mk [("input.txt", ["a=1"])]
              [("s1", Dir.mk [("input.txt", ["b=2"])]
                [("s2", Dir.mk [("input.txt", ["c=x"])] [])]),
               ("s3", Dir.mk [] [])]]
          = .ok sims
        ∧ sims.length
          = (([Dir.mk [("input.txt", ["a=1"])]
              [("s1", Dir.mk [("input.txt", ["b=2"])]
                [("s2", Dir.mk [("input.txt", ["c=x"])] [])]),
               ("s3", Dir.mk [] [])]]).map countSimFolders).sum := by
  refine ⟨by decide, ?_⟩
  have h1 := (grid_discovery_counts
    [Dir.mk [("input.txt", ["a=1"])]
      [("s1", Dir.mk [("input.txt", ["b=2"])]
        [("s2", Dir.mk [("input.txt", ["c=x"])] [])]),
       ("s3", Dir.mk [] [])]]).2.2.1
    [⟨[("a", .int 1)]⟩, ⟨[("b", .int 2)]⟩, ⟨[("c", .str "x")]⟩] (by decide)
  have h2 := (grid_discovery_counts
    [Dir.mk [("input.txt", ["a=1"])]
      [("s1", Dir.mk [("input.txt", ["b=2"])]
        [("s2", Dir.mk [("input.txt", ["c=x"])] [])]),
       ("s3", Dir.mk [] [])]]).2.2.2 (by decide) (by decide)
  exact ⟨h1.1, h1.2, h2⟩

end Bookkeeper
